import Mathlib

/-!  Verification of the wiki-scraper data pipeline (`get_data.py`).

The Python source is shallowly embedded.  Python `str` becomes `String`
(with the operations defined on the underlying `List Char`), Python dicts
keyed by strings become insertion-ordered association lists with Python's
assignment semantics (overwrite in place, append when the key is new),
and fallible operations — `int(...)`, indexing `[0]`/`[1]`, dereferencing
`.text` of an element whose text node is absent — return `Except String`.
`urllib.parse.unquote` is kept as a parameter `uq : String → String`
throughout: no claim depends on its internals and every theorem holds for
an arbitrary decoder.  -/

/-- Boolean test that the first list is an initial segment of the second. -/
def lpre : List Char → List Char → Bool
  | [], _ => true
  | _ :: _, [] => false
  | a :: as, b :: bs => a == b && lpre as bs

/-- Leftmost occurrence of `sep` inside `l`: the part strictly before the
occurrence and the part strictly after it, or `none` when `sep` does not
occur.  This is the primitive underlying Python's `in` and `str.split`. -/
def splitFirst (sep : List Char) : List Char → Option (List Char × List Char)
  | [] => none
  | c :: cs =>
    if lpre sep (c :: cs) then some ([], (c :: cs).drop sep.length)
    else match splitFirst sep cs with
      | none => none
      | some (b, a) => some (c :: b, a)

/-- Python's `sub in s` membership test on character lists. -/
def pyIn (sep l : List Char) : Bool := (splitFirst sep l).isSome

/-- Fuel-driven worker for `pySplit` (fuel keeps the recursion structural,
so that concrete inputs evaluate inside the kernel). -/
def pySplitAux (sep : List Char) : Nat → List Char → List (List Char)
  | 0, l => [l]
  | fuel + 1, l =>
    match splitFirst sep l with
    | none => [l]
    | some (b, a) => b :: pySplitAux sep fuel a

/-- Python's `s.split(sep)` for a nonempty separator: pieces between the
leftmost non-overlapping occurrences of `sep`. -/
def pySplit (sep l : List Char) : List (List Char) := pySplitAux sep l.length l

/-- Python's `str.strip()` (ASCII whitespace; the source only ever strips
ASCII space around table text, so the Unicode cases are not modelled). -/
def pyStrip (l : List Char) : List Char :=
  ((l.dropWhile Char.isWhitespace).reverse.dropWhile Char.isWhitespace).reverse

/-- Python's `sep.join(pieces)`. -/
def pyJoin (sep : List Char) : List (List Char) → List Char
  | [] => []
  | [a] => a
  | a :: b :: rest => a ++ sep ++ pyJoin sep (b :: rest)

/-- Python's `s.replace(" ", "_")`, the id-derivation used throughout
`run` (for a single-character pattern `replace` is a per-character map). -/
def pyId (s : String) : String :=
  String.mk (s.data.map (fun c => if c = ' ' then '_' else c))

/-- Decimal digit character for `d ≤ 9`. -/
def digitChar : Nat → Char
  | 0 => '0' | 1 => '1' | 2 => '2' | 3 => '3' | 4 => '4'
  | 5 => '5' | 6 => '6' | 7 => '7' | 8 => '8' | _ => '9'

/-- Fuel-driven decimal rendering worker. -/
def natCharsAux : Nat → Nat → List Char
  | 0, _ => []
  | fuel + 1, n =>
    if n < 10 then [digitChar n]
    else natCharsAux fuel (n / 10) ++ [digitChar (n % 10)]

/-- Decimal rendering of a natural number, modelling Python's `str(int)`
as used by the f-string that builds recipe ids. -/
def natStr (n : Nat) : String := String.mk (natCharsAux (n + 1) n)

/-- Value of a digit character. -/
def dval (c : Char) : Nat := c.toNat - 48

/-- Decimal value of a digit string (left fold). -/
def charsVal (l : List Char) : Nat := l.foldl (fun a c => a * 10 + dval c) 0

/-- Python's `int(s)` on an already-stripped string: an optional sign
followed by at least one ASCII digit.  (Python additionally accepts
underscore digit separators and Unicode digits; no claim depends on
those, and the source only ever parses plain item counts.) -/
def pyInt (s : String) : Except String Int :=
  match s.data with
  | '-' :: ds =>
    if ds ≠ [] ∧ ds.all Char.isDigit then Except.ok (-(charsVal ds : Int))
    else Except.error "ValueError: invalid literal for int()"
  | '+' :: ds =>
    if ds ≠ [] ∧ ds.all Char.isDigit then Except.ok (charsVal ds : Int)
    else Except.error "ValueError: invalid literal for int()"
  | ds =>
    if ds ≠ [] ∧ ds.all Char.isDigit then Except.ok (charsVal ds : Int)
    else Except.error "ValueError: invalid literal for int()"

/-- Lookup in a Python-dict modelled as an association list. -/
def alookup {α : Type} : List (String × α) → String → Option α
  | [], _ => none
  | (k, v) :: t, key => if k = key then some v else alookup t key

/-- Python dict assignment `d[key] = v`: overwrite in place when the key
exists, append otherwise (insertion order is preserved). -/
def aset {α : Type} : List (String × α) → String → α → List (String × α)
  | [], key, v => [(key, v)]
  | (k, w) :: t, key, v =>
    if k = key then (k, v) :: t else (k, w) :: aset t key v

/-- `mapM` specialised to `Except` with transparent unfolding. -/
def exMapM {α β : Type} (f : α → Except String β) : List α → Except String (List β)
  | [] => Except.ok []
  | a :: as =>
    match f a with
    | Except.error e => Except.error e
    | Except.ok b =>
      match exMapM f as with
      | Except.error e => Except.error e
      | Except.ok bs => Except.ok (b :: bs)

theorem lpre_iff (a b : List Char) : lpre a b = true ↔ ∃ t, b = a ++ t := by
  induction a generalizing b with
  | nil => simp [lpre]
  | cons c cs ih =>
    cases b with
    | nil => simp [lpre]
    | cons d ds =>
      simp only [lpre, Bool.and_eq_true, beq_iff_eq]
      constructor
      · rintro ⟨rfl, h⟩
        obtain ⟨t, rfl⟩ := (ih ds).1 h
        exact ⟨t, rfl⟩
      · rintro ⟨t, ht⟩
        cases ht
        exact ⟨rfl, (ih _).2 ⟨t, rfl⟩⟩

theorem splitFirst_append {sep l b a : List Char}
    (h : splitFirst sep l = some (b, a)) : l = b ++ sep ++ a := by
  induction l generalizing b a with
  | nil => simp [splitFirst] at h
  | cons c cs ih =>
    by_cases hp : lpre sep (c :: cs) = true
    · obtain ⟨t, ht⟩ := (lpre_iff _ _).1 hp
      rw [splitFirst, if_pos hp] at h
      have hd : (c :: cs).drop sep.length = t := by
        rw [ht]; exact List.drop_left sep t
      rw [hd] at h
      simp only [Option.some.injEq, Prod.mk.injEq] at h
      obtain ⟨rfl, rfl⟩ := h
      simpa using ht
    · rw [splitFirst, if_neg hp] at h
      cases hsf : splitFirst sep cs with
      | none => rw [hsf] at h; exact absurd h (by simp)
      | some p =>
        obtain ⟨b', a'⟩ := p
        rw [hsf] at h
        simp only [Option.some.injEq, Prod.mk.injEq] at h
        obtain ⟨rfl, rfl⟩ := h
        simp [ih hsf]

theorem splitFirst_length {sep l b a : List Char} (hs : sep ≠ [])
    (h : splitFirst sep l = some (b, a)) : a.length < l.length := by
  have := splitFirst_append h
  subst this
  have : 0 < sep.length := List.length_pos.2 hs
  simp only [List.length_append]
  omega

theorem pySplitAux_irrel (sep : List Char) (hs : sep ≠ []) :
    ∀ f1 : Nat, ∀ l : List Char, ∀ f2 : Nat, l.length ≤ f1 → l.length ≤ f2 →
      pySplitAux sep f1 l = pySplitAux sep f2 l := by
  intro f1
  induction f1 with
  | zero =>
    intro l f2 h1 _
    have : l = [] := List.length_eq_zero.1 (Nat.le_zero.1 h1)
    subst this
    cases f2 with
    | zero => rfl
    | succ f2 => simp [pySplitAux, splitFirst]
  | succ f1 ih =>
    intro l f2 h1 h2
    cases f2 with
    | zero =>
      have : l = [] := List.length_eq_zero.1 (Nat.le_zero.1 h2)
      subst this
      simp [pySplitAux, splitFirst]
    | succ f2 =>
      cases hsf : splitFirst sep l with
      | none => simp only [pySplitAux, hsf]
      | some p =>
        obtain ⟨b, a⟩ := p
        have hlt := splitFirst_length hs hsf
        have ha1 : a.length ≤ f1 := by omega
        have ha2 : a.length ≤ f2 := by omega
        simp only [pySplitAux, hsf]
        rw [ih a f2 ha1 ha2]

theorem pySplit_eq (sep : List Char) (hs : sep ≠ []) (l : List Char) :
    pySplit sep l =
      match splitFirst sep l with
      | none => [l]
      | some (b, a) => b :: pySplit sep a := by
  cases hsf : splitFirst sep l with
  | none =>
    cases l with
    | nil => rfl
    | cons c cs => simp [pySplit, pySplitAux, hsf]
  | some p =>
    obtain ⟨b, a⟩ := p
    have hlt := splitFirst_length hs hsf
    cases l with
    | nil => simp [splitFirst] at hsf
    | cons c cs =>
      simp only [pySplit, List.length_cons, pySplitAux, hsf]
      rw [pySplitAux_irrel sep hs cs.length a a.length
        (by simp only [List.length_cons] at hlt; omega) le_rfl]

theorem pySplit_ne_nil (sep l : List Char) : pySplit sep l ≠ [] := by
  unfold pySplit
  cases h : l.length with
  | zero => simp [pySplitAux]
  | succ n =>
    simp only [pySplitAux]
    cases splitFirst sep l with
    | none => simp
    | some p => obtain ⟨b, a⟩ := p; simp

theorem takeWhile_append_stop (p : Char → Bool) {x : Char} (hx : p x = false) :
    ∀ a r : List Char, (a ++ x :: r).takeWhile p = a.takeWhile p := by
  intro a r
  induction a with
  | nil => simp [List.takeWhile, hx]
  | cons c cs ih =>
    simp only [List.cons_append, List.takeWhile]
    cases p c with
    | false => rfl
    | true => simpa using ih

theorem takeWhile_eq_self (p : Char → Bool) :
    ∀ l : List Char, (∀ c ∈ l, p c = true) → l.takeWhile p = l := by
  intro l h
  induction l with
  | nil => rfl
  | cons c cs ih =>
    simp only [List.takeWhile, h c (by simp)]
    simpa using ih (fun d hd => h d (by simp [hd]))

theorem takeWhile_all_append (p : Char → Bool) {x : Char} (hx : p x = false)
    (a r : List Char) (ha : ∀ c ∈ a, p c = true) :
    (a ++ x :: r).takeWhile p = a := by
  rw [takeWhile_append_stop p hx, takeWhile_eq_self p a ha]

theorem dropWhile_all_append (p : Char → Bool) {x : Char} (hx : p x = false)
    (a r : List Char) (ha : ∀ c ∈ a, p c = true) :
    (a ++ x :: r).dropWhile p = x :: r := by
  induction a with
  | nil => simp [List.dropWhile, hx]
  | cons c cs ih =>
    simp only [List.cons_append, List.dropWhile, ha c (by simp)]
    exact ih (fun d hd => ha d (by simp [hd]))

/-- Decoding lemma: in `o ++ "__" ++ d` with `d` all digits, the digit
suffix and the stem are uniquely determined. -/
theorem decode_us (o1 o2 d1 d2 : List Char)
    (h1 : ∀ c ∈ d1, c.isDigit = true) (h2 : ∀ c ∈ d2, c.isDigit = true)
    (h : o1 ++ '_' :: '_' :: d1 = o2 ++ '_' :: '_' :: d2) :
    o1 = o2 ∧ d1 = d2 := by
  have hrev : d1.reverse ++ '_' :: '_' :: o1.reverse
      = d2.reverse ++ '_' :: '_' :: o2.reverse := by
    have := congrArg List.reverse h
    simpa [List.reverse_append] using this
  have hus : ('_' : Char).isDigit = false := by decide
  have hd1 : ∀ c ∈ d1.reverse, c.isDigit = true := fun c hc => h1 c (by simpa using hc)
  have hd2 : ∀ c ∈ d2.reverse, c.isDigit = true := fun c hc => h2 c (by simpa using hc)
  have htk : d1.reverse = d2.reverse := by
    have t1 := takeWhile_all_append Char.isDigit hus d1.reverse ('_' :: o1.reverse) hd1
    have t2 := takeWhile_all_append Char.isDigit hus d2.reverse ('_' :: o2.reverse) hd2
    rw [← t1, ← t2, hrev]
  have hdd : d1 = d2 := by
    have := congrArg List.reverse htk
    simpa using this
  constructor
  · subst hdd
    have hdr : ∀ c ∈ d1.reverse, Char.isDigit c = true := hd1
    have u1 := dropWhile_all_append Char.isDigit hus d1.reverse ('_' :: o1.reverse) hdr
    have u2 := dropWhile_all_append Char.isDigit hus d1.reverse ('_' :: o2.reverse) hd2
    rw [hrev] at u1
    rw [u2] at u1
    have hoo : o2.reverse = o1.reverse := by simpa using u1
    have := congrArg List.reverse hoo
    simp only [List.reverse_reverse] at this
    exact this.symm
  · exact hdd

theorem digitChar_isDigit {d : Nat} (hd : d < 10) : (digitChar d).isDigit = true := by
  interval_cases d <;> decide

theorem dval_digitChar {d : Nat} (hd : d < 10) : dval (digitChar d) = d := by
  interval_cases d <;> decide

theorem natCharsAux_digits : ∀ fuel n : Nat, n < fuel →
    ∀ c ∈ natCharsAux fuel n, c.isDigit = true := by
  intro fuel
  induction fuel with
  | zero => intro n h; omega
  | succ fuel ih =>
    intro n h c hc
    by_cases h10 : n < 10
    · simp only [natCharsAux, if_pos h10, List.mem_singleton] at hc
      subst hc
      exact digitChar_isDigit h10
    · simp only [natCharsAux, if_neg h10, List.mem_append, List.mem_singleton] at hc
      rcases hc with hc | hc
      · exact ih (n / 10) (by omega) c hc
      · subst hc
        exact digitChar_isDigit (Nat.mod_lt n (by omega))

theorem charsVal_append_digit (l : List Char) (c : Char) :
    charsVal (l ++ [c]) = charsVal l * 10 + dval c := by
  simp [charsVal, List.foldl_append]

theorem natCharsAux_val : ∀ fuel n : Nat, n < fuel →
    charsVal (natCharsAux fuel n) = n := by
  intro fuel
  induction fuel with
  | zero => intro n h; omega
  | succ fuel ih =>
    intro n h
    by_cases h10 : n < 10
    · simp only [natCharsAux, if_pos h10]
      simpa [charsVal, List.foldl] using dval_digitChar h10
    · have hdiv : n / 10 < fuel := by
        have := Nat.div_lt_self (by omega : 0 < n) (by omega : 1 < 10)
        omega
      simp only [natCharsAux, if_neg h10]
      rw [charsVal_append_digit, ih (n / 10) hdiv, dval_digitChar (Nat.mod_lt n (by omega))]
      omega

theorem natStr_digits (n : Nat) : ∀ c ∈ (natStr n).data, c.isDigit = true := by
  intro c hc
  exact natCharsAux_digits (n + 1) n (by omega) c hc

theorem natStr_inj {m n : Nat} (h : natStr m = natStr n) : m = n := by
  have hd : natCharsAux (m + 1) m = natCharsAux (n + 1) n := congrArg String.data h
  have := congrArg charsVal hd
  rwa [natCharsAux_val (m + 1) m (by omega), natCharsAux_val (n + 1) n (by omega)] at this

theorem alookup_aset_self {α : Type} (m : List (String × α)) (k : String) (v : α) :
    alookup (aset m k v) k = some v := by
  induction m with
  | nil => simp [aset, alookup]
  | cons p t ih =>
    obtain ⟨k', w⟩ := p
    by_cases hk : k' = k
    · simp [aset, hk, alookup]
    · simp [aset, hk, alookup, ih]

theorem alookup_aset_ne {α : Type} (m : List (String × α)) (k k' : String) (v : α)
    (h : k' ≠ k) : alookup (aset m k v) k' = alookup m k' := by
  have hne : ¬ k = k' := fun hh => h hh.symm
  induction m with
  | nil => simp [aset, alookup, hne]
  | cons p t ih =>
    obtain ⟨k0, w⟩ := p
    simp only [aset]
    by_cases hk : k0 = k
    · rw [if_pos hk]
      have h0 : ¬ k0 = k' := by rw [hk]; exact hne
      simp [alookup, h0]
    · rw [if_neg hk]
      simp only [alookup]
      by_cases hk' : k0 = k'
      · rw [if_pos hk', if_pos hk']
      · rw [if_neg hk', if_neg hk']
        exact ih

theorem aset_fresh_append {α : Type} (m : List (String × α)) (k : String) (v : α)
    (h : alookup m k = none) : aset m k v = m ++ [(k, v)] := by
  induction m with
  | nil => simp [aset]
  | cons p t ih =>
    obtain ⟨k0, w⟩ := p
    by_cases hk : k0 = k
    · simp [alookup, hk] at h
    · simp only [alookup, if_neg hk] at h
      simp [aset, hk, ih h]

theorem alookup_mem_of_some {α : Type} {m : List (String × α)} {k : String} {v : α}
    (h : alookup m k = some v) : (k, v) ∈ m := by
  induction m with
  | nil => simp [alookup] at h
  | cons p t ih =>
    obtain ⟨k0, w⟩ := p
    by_cases hk : k0 = k
    · simp only [alookup, if_pos hk, Option.some.injEq] at h
      subst hk
      subst h
      exact List.mem_cons_self _ _
    · simp only [alookup, if_neg hk] at h
      exact List.mem_cons.2 (Or.inr (ih h))

theorem mem_aset {α : Type} {m : List (String × α)} {k0 : String} {v0 : α}
    {k : String} {v : α} (h : (k, v) ∈ aset m k0 v0) :
    (k, v) ∈ m ∨ (k = k0 ∧ v = v0) := by
  induction m with
  | nil =>
    simp only [aset, List.mem_singleton, Prod.mk.injEq] at h
    exact Or.inr h
  | cons p t ih =>
    obtain ⟨k1, w⟩ := p
    simp only [aset] at h
    by_cases hk : k1 = k0
    · rw [if_pos hk] at h
      rcases List.mem_cons.1 h with h1 | h1
      · have h2 : k = k1 ∧ v = v0 := by simpa [Prod.ext_iff] using h1
        exact Or.inr ⟨h2.1.trans hk, h2.2⟩
      · exact Or.inl (List.mem_cons.2 (Or.inr h1))
    · rw [if_neg hk] at h
      rcases List.mem_cons.1 h with h1 | h1
      · exact Or.inl (List.mem_cons.2 (Or.inl h1))
      · rcases ih h1 with h2 | h2
        · exact Or.inl (List.mem_cons.2 (Or.inr h2))
        · exact Or.inr h2

theorem alookup_isSome_aset {α : Type} (m : List (String × α)) (k0 k : String) (v0 : α)
    (h : (alookup m k).isSome = true) : (alookup (aset m k0 v0) k).isSome = true := by
  by_cases he : k = k0
  · subst he
    simp [alookup_aset_self]
  · rw [alookup_aset_ne m k0 k v0 he]
    exact h

theorem exMapM_ok_mem {α β : Type} {f : α → Except String β} :
    ∀ {l : List α} {l' : List β}, exMapM f l = Except.ok l' →
      ∀ b ∈ l', ∃ a ∈ l, f a = Except.ok b := by
  intro l
  induction l with
  | nil =>
    intro l' h b hb
    simp only [exMapM, Except.ok.injEq] at h
    subst h
    simp at hb
  | cons a as ih =>
    intro l' h b hb
    simp only [exMapM] at h
    cases hfa : f a with
    | error e => rw [hfa] at h; exact absurd h (by simp)
    | ok b0 =>
      rw [hfa] at h
      cases hrest : exMapM f as with
      | error e => rw [hrest] at h; exact absurd h (by simp)
      | ok bs =>
        rw [hrest] at h
        simp only [Except.ok.injEq] at h
        subst h
        rcases List.mem_cons.1 hb with rfl | hb'
        · exact ⟨a, by simp, hfa⟩
        · obtain ⟨a', ha', hfa'⟩ := ih hrest b hb'
          exact ⟨a', by simp [ha'], hfa'⟩

theorem exMapM_length {α β : Type} {f : α → Except String β} :
    ∀ {l : List α} {l' : List β}, exMapM f l = Except.ok l' → l'.length = l.length := by
  intro l
  induction l with
  | nil =>
    intro l' h
    simp only [exMapM, Except.ok.injEq] at h
    subst h; rfl
  | cons a as ih =>
    intro l' h
    simp only [exMapM] at h
    cases hfa : f a with
    | error e => rw [hfa] at h; exact absurd h (by simp)
    | ok b0 =>
      rw [hfa] at h
      cases hrest : exMapM f as with
      | error e => rw [hrest] at h; exact absurd h (by simp)
      | ok bs =>
        rw [hrest] at h
        simp only [Except.ok.injEq] at h
        subst h
        simp [ih hrest]

theorem exMapM_error_of_mem {α β : Type} {f : α → Except String β} :
    ∀ {l : List α} {a : α} {e : String}, a ∈ l → f a = Except.error e →
      ∃ e', exMapM f l = Except.error e' := by
  intro l
  induction l with
  | nil => intro a e ha; simp at ha
  | cons a0 as ih =>
    intro a e ha hfa
    rcases List.mem_cons.1 ha with rfl | ha'
    · exact ⟨e, by simp [exMapM, hfa]⟩
    · cases hfa0 : f a0 with
      | error e0 => exact ⟨e0, by simp [exMapM, hfa0]⟩
      | ok b0 =>
        obtain ⟨e', he'⟩ := ih ha' hfa
        exact ⟨e', by simp [exMapM, hfa0, he']⟩

/-- Two decompositions of the same list give comparable first parts. -/
theorem append_eq_append_pre {a b x y : List Char} (h : a ++ x = b ++ y) :
    (∃ t, b = a ++ t) ∨ (∃ t, a = b ++ t) := by
  induction a generalizing b with
  | nil => exact Or.inl ⟨b, rfl⟩
  | cons c cs ih =>
    cases b with
    | nil => exact Or.inr ⟨c :: cs, rfl⟩
    | cons d ds =>
      simp only [List.cons_append, List.cons.injEq] at h
      obtain ⟨rfl, h'⟩ := h
      rcases ih h' with ⟨t, ht⟩ | ⟨t, ht⟩
      · exact Or.inl ⟨t, by simp [ht]⟩
      · exact Or.inr ⟨t, by simp [ht]⟩

/-! ## Embedding of `get_data.py` -/

/-- Image-fetch helper `download_image` (source lines 19–24).  The
filesystem is an association list from paths to byte contents, the
network is a function from URL to response body, and the first component
of the result counts the GET requests performed by the call. -/
def download_image (net : String → List Nat) (fs : List (String × List Nat))
    (url : String) (save_path : String) : Nat × List (String × List Nat) :=
  if (alookup fs save_path).isSome then (0, fs)
  else (1, aset fs save_path (net url))

/-- `normalize_item_image_url` (source lines 27–36), written with the
list-level `split`/`in` primitives.  `parts.getD 1 []` is `parts[1]`,
safe here because the guard guarantees at least one occurrence. -/
def normalize_item_image_url (src : String) : String :=
  if pyIn "/thumb/".data src.data then
    let parts := pySplit "/thumb/".data src.data
    let rest := parts.getD 1 []
    let filename := (pySplit ['/'] rest).headD []
    let query :=
      if pyIn ['?'] src.data then '?' :: ((pySplit ['?'] src.data).getD 1 [])
      else []
    String.mk ("/images/".data ++ filename ++ query)
  else src

/-- Spec-side definition for claim C1, following the specification's
words: keep the text after the first `/thumb/` occurrence up to the next
`/` (the original filename) and reattach the original query string,
i.e. everything after the first `?`. -/
def normalizeSpecC1 (src : String) : String :=
  match splitFirst "/thumb/".data src.data with
  | none => src
  | some (_, rest) =>
    let filename := rest.takeWhile (fun c => c ≠ '/')
    let query :=
      match splitFirst ['?'] src.data with
      | none => []
      | some (_, q) => '?' :: q
    String.mk ("/images/".data ++ filename ++ query)

/-- One `pi-data` row of the General Information section: the `.text`
contents of the `pi-data-label` elements and, per `pi-data-value`
element, the list of its descendant text nodes. -/
structure InfoRow where
  labelEls : List (Option String)
  valueEls : List (List String)
deriving DecidableEq, Repr

/-- The `label` variable of `get_general_info` (source line 59):
`label_el[0].text.strip() if label_el else None`; dereferencing `.text`
of an element with no text raises `AttributeError`. -/
def rowLabel (row : InfoRow) : Except String (Option (List Char)) :=
  match row.labelEls with
  | [] => Except.ok none
  | none :: _ => Except.error "AttributeError: NoneType has no attribute strip"
  | some t :: _ => Except.ok (some (pyStrip t.data))

/-- The `value` variable of `get_general_info` (source lines 60–64):
space-join of all descendant text of the first `pi-data-value` element,
stripped; `None` when no value element exists. -/
def rowValue (row : InfoRow) : Option (List Char) :=
  match row.valueEls with
  | [] => none
  | v :: _ => some (pyStrip (pyJoin [' '] (v.map String.data)))

/-- One iteration of the `get_general_info` loop (source lines 57–66):
`if label and value: info[label] = value` with Python truthiness
(`None` and the empty string are falsy). -/
def infoStep (info : List (String × String)) (row : InfoRow) :
    Except String (List (String × String)) :=
  match rowLabel row with
  | Except.error e => Except.error e
  | Except.ok lab =>
    match lab, rowValue row with
    | some l, some w =>
      if l ≠ [] ∧ w ≠ [] then Except.ok (aset info (String.mk l) (String.mk w))
      else Except.ok info
    | _, _ => Except.ok info

/-- Worker for `get_general_info`, threading the `info` dict. -/
def getGenAux (info : List (String × String)) :
    List InfoRow → Except String (List (String × String))
  | [] => Except.ok info
  | row :: rest =>
    match infoStep info row with
    | Except.error e => Except.error e
    | Except.ok info' => getGenAux info' rest

/-- `get_general_info` (source lines 52–67). -/
def get_general_info (rows : List InfoRow) : Except String (List (String × String)) :=
  getGenAux [] rows

/-- One material cell as parsed by `get_recipes`: the `data-name`
attribute (lxml's `get` returns `None` when absent) and the parsed
integer count. -/
structure RawMat where
  name : Option String
  quantity : Int
deriving DecidableEq, Repr

/-- One recipe dict produced by `get_recipes`. -/
structure RawRecipe where
  inputs : List RawMat
  outputs : List RawMat
  time : String
deriving DecidableEq, Repr

/-- One `tr` of the recipe table: the `data-name` attributes of the
`item-tooltip` divs and the `.text` of the `item-count` divs in `td[1]`
and `td[2]`, and the third `td` (present or not) with its `.text`. -/
structure Row where
  inputNames : List (Option String)
  inputCounts : List (Option String)
  outputNames : List (Option String)
  outputCounts : List (Option String)
  td3 : Option (Option String)
deriving DecidableEq, Repr

/-- `int(count_el.text.strip())`: `.text` of an empty element is `None`
(`AttributeError` on `.strip()`), otherwise strip and parse. -/
def parseCount : Option String → Except String Int
  | none => Except.error "AttributeError: NoneType has no attribute strip"
  | some s => pyInt (String.mk (pyStrip s.data))

/-- Parse the pair of a tooltip and its positionally matching count. -/
def parseMat (nc : Option String × Option String) : Except String RawMat :=
  match parseCount nc.2 with
  | Except.error e => Except.error e
  | Except.ok q => Except.ok { name := nc.1, quantity := q }

/-- One iteration of the `get_recipes` row loop (source lines 102–136):
`none` means the row was skipped by a `continue`.  Note the order: the
inputs are parsed (via `zip`, which truncates to the shorter of the
tooltip and count lists) before the output and time cells are examined. -/
def rowRecipe (row : Row) : Except String (Option RawRecipe) :=
  if row.inputNames = [] then Except.ok none
  else
    match exMapM parseMat (row.inputNames.zip row.inputCounts) with
    | Except.error e => Except.error e
    | Except.ok ins =>
      match row.outputNames with
      | [] => Except.ok none
      | n0 :: _ =>
        match row.outputCounts with
        | [] => Except.error "IndexError: list index out of range"
        | c0 :: _ =>
          match parseCount c0 with
          | Except.error e => Except.error e
          | Except.ok q =>
            match row.td3 with
            | none => Except.ok none
            | some txt =>
              match txt with
              | none => Except.error "AttributeError: NoneType has no attribute strip"
              | some t =>
                Except.ok (some
                  { inputs := ins
                    outputs := [{ name := n0, quantity := q }]
                    time := String.mk (pyStrip t.data) })

/-- `get_recipes` (source lines 97–138). -/
def get_recipes : List Row → Except String (List RawRecipe)
  | [] => Except.ok []
  | row :: rest =>
    match rowRecipe row with
    | Except.error e => Except.error e
    | Except.ok none => get_recipes rest
    | Except.ok (some r) =>
      match get_recipes rest with
      | Except.error e => Except.error e
      | Except.ok rs => Except.ok (r :: rs)

/-- An item record (`name` holds the `"en"` entry of the name mapping). -/
structure Item where
  id : String
  nameEn : String
  image : Option String
  tier : Option String
deriving DecidableEq, Repr

/-- A recipe input/output entry `{itemId, amount}`. -/
structure ItemRef where
  itemId : String
  amount : Int
deriving DecidableEq, Repr

/-- A recipe record of the recipes map. -/
structure RecipeEntry where
  id : String
  facilityId : String
  inputs : List ItemRef
  outputs : List ItemRef
  craftingTime : String
deriving DecidableEq, Repr

/-- A facility record.  `powerConsumption = none` encodes the integer
default `0` of `general_info.get("Power", 0)`. -/
structure Facility where
  id : String
  name : String
  tier : Option String
  powerConsumption : Option String
  supportedRecipes : List String
  image : Option String
deriving DecidableEq, Repr

/-- The parallel-parse result for one facility page (the return value of
`get_facility_and_recipes` minus the raw tree, which `run` never touches
again). -/
structure ParsedFacility where
  facilityImg : Option String
  itemImgs : List String
  info : List (String × String)
  recipes : List RawRecipe
deriving DecidableEq, Repr

/-- The three aggregation maps built by `run`. -/
structure St where
  items : List (String × Item)
  facilities : List (String × Facility)
  recipes : List (String × RecipeEntry)
deriving DecidableEq, Repr

/-- `name.replace(" ", "_")` on a value that may be `None` (lxml `get`):
Python raises `AttributeError` on `None`. -/
def pyName : Option String → Except String String
  | none => Except.error "AttributeError: NoneType has no attribute replace"
  | some s => Except.ok (pyId s)

/-- `items.setdefault(item_id, {...})` (source lines 225–233): insert a
fresh record with null image and tier when the key is absent. -/
def insertItem (items : List (String × Item)) (rawName : String) : List (String × Item) :=
  let item_id := pyId rawName
  if (alookup items item_id).isSome then items
  else items ++ [(item_id, { id := item_id, nameEn := rawName, image := none, tier := none })]

/-- The per-material half of the item-insertion loop. -/
def itemsForMats (items : List (String × Item)) :
    List RawMat → Except String (List (String × Item))
  | [] => Except.ok items
  | m :: ms =>
    match m.name with
    | none => Except.error "AttributeError: NoneType has no attribute replace"
    | some s => itemsForMats (insertItem items s) ms

/-- The item-insertion loop of `run` (source lines 222–244): for each
recipe, insert every input item then every output item. -/
def itemsAfterRecipes (items : List (String × Item)) :
    List RawRecipe → Except String (List (String × Item))
  | [] => Except.ok items
  | r :: rs =>
    match itemsForMats items r.inputs with
    | Except.error e => Except.error e
    | Except.ok i1 =>
      match itemsForMats i1 r.outputs with
      | Except.error e => Except.error e
      | Except.ok i2 => itemsAfterRecipes i2 rs

/-- The recipe-id format `f"{facility_id}__{first_out_id}__{seq}"`. -/
def ridStr (fid firstOut : String) (seq : Nat) : String :=
  fid ++ "__" ++ firstOut ++ "__" ++ natStr seq

/-- Convert a raw material to a recipe entry reference. -/
def matRef (m : RawMat) : Except String ItemRef :=
  match pyName m.name with
  | Except.error e => Except.error e
  | Except.ok i => Except.ok { itemId := i, amount := m.quantity }

/-- The recipe-id generation loop of `run` (source lines 246–266):
`recipe_count` is the per-facility counter dict, `r["outputs"][0]`
raises `IndexError` on an empty output list. -/
def genRecipes (fid : String) (cnt : List (String × Nat)) :
    List RawRecipe → Except String (List RecipeEntry)
  | [] => Except.ok []
  | r :: rs =>
    match r.outputs with
    | [] => Except.error "IndexError: list index out of range"
    | o :: _ =>
      match pyName o.name with
      | Except.error e => Except.error e
      | Except.ok firstOut =>
        let seq := (alookup cnt firstOut).getD 0 + 1
        match exMapM matRef r.inputs with
        | Except.error e => Except.error e
        | Except.ok ins =>
          match exMapM matRef r.outputs with
          | Except.error e => Except.error e
          | Except.ok outs =>
            match genRecipes fid (aset cnt firstOut seq) rs with
            | Except.error e => Except.error e
            | Except.ok rest =>
              Except.ok
                ({ id := ridStr fid firstOut seq
                   facilityId := fid
                   inputs := ins
                   outputs := outs
                   craftingTime := r.time } :: rest)

/-- `recipes[recipe_id] = {...}` for each generated entry, in order. -/
def insertEntries (m : List (String × RecipeEntry)) :
    List RecipeEntry → List (String × RecipeEntry)
  | [] => m
  | e :: es => insertEntries (aset m e.id e) es

/-- The filename derived from a (normalized) image URL in the thumbnail
pass (source lines 273–274): `full_src.split("/")[-1].split("?")[0]`
then `unquote`. -/
def thumbFilenameOf (uq : String → String) (src : String) : String :=
  let full_src := normalize_item_image_url src
  uq (String.mk ((pySplit ['?'] ((pySplit ['/'] full_src.data).getLastD [])).headD []))

/-- `Path(filename).stem` (pathlib: the suffix starts at the last dot,
which must be neither the first nor the last character of the name). -/
def pyStem (n : List Char) : List Char :=
  let tl := (n.reverse.takeWhile (fun c => c ≠ '.')).length
  if tl = n.length then n
  else
    let i := n.length - tl - 1
    if 0 < i ∧ i < n.length - 1 then n.take i else n

/-- The item id derived in the thumbnail pass (source line 277):
`Path(filename).stem.replace(" ", "_")`. -/
def thumbIdOf (uq : String → String) (src : String) : String :=
  pyId (String.mk (pyStem (thumbFilenameOf uq src).data))

/-- `items[item_id]["image"] = img`: update the image field of the
binding at `item_id` (dict keys are unique, so updating every matching
binding is the same in-place assignment). -/
def updImage (item_id img : String) : List (String × Item) → List (String × Item)
  | [] => []
  | (k, it) :: t =>
    (k, if k = item_id then { it with image := some img } else it) :: updImage item_id img t

/-- One iteration of the recipe-thumbnail image pass (source lines
270–279).  The image-download job queue is not modelled (no claim
concerns it); only the effect on the items map is kept:
`if item_id in items: items[item_id]["image"] = f"images/items/{filename}"`. -/
def thumbStep (uq : String → String) (items : List (String × Item)) (src : String) :
    List (String × Item) :=
  let item_id := thumbIdOf uq src
  if (alookup items item_id).isSome then
    updImage item_id ("images/items/" ++ thumbFilenameOf uq src) items
  else items

/-- Python truthiness of an optional string. -/
def truthy : Option String → Bool
  | none => false
  | some s => !(s == "")

/-- One iteration of the phase-2 aggregation loop of `run` (source lines
193–279) for the facility `name` with parse result `pf`.  The source
initialises `supportedRecipes` to `[]` and appends each generated id
inside the recipe loop; since only this facility's fresh record is ever
appended to, that equals building the record with the generated id list.
The facility-image download job is not modelled (only the `image` field
it induces is). -/
def phase2Step (uq : String → String) (st : St) (name : String) (pf : ParsedFacility) :
    Except String St :=
  let fid := pyId name
  let fac0 : Facility :=
    { id := fid
      name := name
      tier := alookup pf.info "Tier"
      powerConsumption := alookup pf.info "Power"
      supportedRecipes := []
      image := if truthy pf.facilityImg then some ("images/facilities/" ++ fid ++ ".png") else none }
  match itemsAfterRecipes st.items pf.recipes with
  | Except.error e => Except.error e
  | Except.ok items1 =>
    match genRecipes fid [] pf.recipes with
    | Except.error e => Except.error e
    | Except.ok es =>
      let recipes1 := insertEntries st.recipes es
      let facilities1 := aset st.facilities fid { fac0 with supportedRecipes := es.map (fun e => e.id) }
      let items2 := pf.itemImgs.foldl (thumbStep uq) items1
      Except.ok { items := items2, facilities := facilities1, recipes := recipes1 }

/-- The phase-2 loop over all facilities, in facility-name order. -/
def phase2Go (uq : String → String) (st : St) :
    List (String × ParsedFacility) → Except String St
  | [] => Except.ok st
  | (name, pf) :: rest =>
    match phase2Step uq st name pf with
    | Except.error e => Except.error e
    | Except.ok st' => phase2Go uq st' rest

/-- The whole aggregation phase of `run`, starting from empty maps. -/
def phase2 (uq : String → String) (inp : List (String × ParsedFacility)) :
    Except String St :=
  phase2Go uq { items := [], facilities := [], recipes := [] } inp

/-- The sequence of recipe ids generated across the whole phase-2 loop
(the successive values of `recipe_id` at source line 252), in order. -/
def phase2RecipeIds : List (String × ParsedFacility) → Except String (List String)
  | [] => Except.ok []
  | (name, pf) :: rest =>
    match genRecipes (pyId name) [] pf.recipes with
    | Except.error e => Except.error e
    | Except.ok es =>
      match phase2RecipeIds rest with
      | Except.error e => Except.error e
      | Except.ok ids => Except.ok (es.map (fun e => e.id) ++ ids)

/-- The filename derived from an item page's main image (source lines
294–295): `image_src.split("/")[-1].split("?")[0]` then `unquote`. -/
def itemFilenameOf (uq : String → String) (s : String) : String :=
  uq (String.mk ((pySplit ['?'] ((pySplit ['/'] s.data).getLastD [])).headD []))

/-- The phase-3 update of one item from its detail-page result (source
lines 287–298): set `tier` when the page's general info has a truthy
Tier entry, and overwrite `image` when the page has a truthy main image. -/
def phase3Step (uq : String → String) (it : Item)
    (res : Option String × List (String × String)) : Item :=
  let it1 :=
    match alookup res.2 "Tier" with
    | some t => if t = "" then it else { it with tier := some t }
    | none => it
  match res.1 with
  | some s =>
    if s = "" then it1
    else { it1 with image := some ("images/items/" ++ itemFilenameOf uq s) }
  | none => it1

/-- Phase 3 of `run` (source lines 282–298): gather the item names in
the items map's iteration order, fetch each name's page (`fetch` models
`get_item_info_page`), and zip the results back against the items map. -/
def phase3 (uq : String → String)
    (fetch : String → Option String × List (String × String))
    (items : List (String × Item)) : List (String × Item) :=
  let names := items.map (fun kv => kv.2.nameEn)
  let results := names.map fetch
  (items.zip results).map (fun p => (p.1.1, phase3Step uq p.1.2 p.2))

/-! ## Supporting lemmas for the claim theorems -/

theorem string_data_inj {s t : String} (h : s.data = t.data) : s = t := by
  cases s
  cases t
  exact congrArg String.mk h

theorem alookup_append {α : Type} :
    ∀ (m1 m2 : List (String × α)) (k : String),
      alookup (m1 ++ m2) k =
        match alookup m1 k with
        | some v => some v
        | none => alookup m2 k := by
  intro m1 m2 k
  induction m1 with
  | nil => simp [alookup]
  | cons p t ih =>
    obtain ⟨k0, v⟩ := p
    by_cases hk : k0 = k
    · simp [alookup, hk]
    · simp only [List.cons_append, alookup, if_neg hk]
      exact ih

theorem alookup_updImage (item_id img : String) :
    ∀ (l : List (String × Item)) (k : String),
      alookup (updImage item_id img l) k =
        if k = item_id then (alookup l k).map (fun it => { it with image := some img })
        else alookup l k := by
  intro l k
  induction l with
  | nil => simp [updImage, alookup]
  | cons p t ih =>
    obtain ⟨k0, v⟩ := p
    simp only [updImage, alookup]
    by_cases hk : k0 = k
    · subst hk
      by_cases h0 : k0 = item_id
      · simp [h0]
      · simp [h0]
    · rw [if_neg hk, if_neg hk, ih]

theorem map_fst_updImage (item_id img : String) :
    ∀ l : List (String × Item),
      (updImage item_id img l).map Prod.fst = l.map Prod.fst := by
  intro l
  induction l with
  | nil => rfl
  | cons p t ih =>
    obtain ⟨k0, v⟩ := p
    simp only [updImage, List.map_cons]
    rw [ih]

theorem zip_map_self {α β γ : Type} (h : α → β) (F : α × β → γ) :
    ∀ l : List α, (l.zip (l.map h)).map F = l.map (fun a => F (a, h a)) := by
  intro l
  induction l with
  | nil => rfl
  | cons a as ih =>
    simp only [List.map_cons, List.zip_cons_cons, ih]

/-! ## Claim C7 -/

/-- Claim C7: for every destination path that already exists,
`download_image` performs no network request and leaves the filesystem
unchanged; two sequential calls with the same URL and destination on an
initially absent path perform exactly one request in total (the second
call short-circuits on the file written by the first). -/
theorem c7_download_idempotent :
    ∀ (net : String → List Nat) (fs : List (String × List Nat)) (url path : String),
      ((alookup fs path).isSome = true → download_image net fs url path = (0, fs)) ∧
      (alookup fs path = none →
        (download_image net fs url path).1
          + (download_image net (download_image net fs url path).2 url path).1 = 1) := by
  intro net fs url path
  constructor
  · intro h
    simp [download_image, h]
  · intro h
    have h1 : download_image net fs url path = (1, aset fs path (net url)) := by
      simp [download_image, h]
    rw [h1]
    have h2 : (alookup (aset fs path (net url)) path).isSome = true := by
      simp [alookup_aset_self]
    simp [download_image, h2]

/-- Witness for C7 at a concrete filesystem, network and path. -/
theorem c7_witness :
    download_image (fun _ => [7]) [("p", [1])] "u" "p" = (0, [("p", [1])]) ∧
    (download_image (fun _ => [7]) [] "u" "p").1
      + (download_image (fun _ => [7])
          (download_image (fun _ => [7]) [] "u" "p").2 "u" "p").1 = 1 :=
  ⟨(c7_download_idempotent (fun _ => [7]) [("p", [1])] "u" "p").1 (by decide),
   (c7_download_idempotent (fun _ => [7]) [] "u" "p").2 (by decide)⟩

/-! ## Claim C10 -/

/-- Claim C10: the recipe-thumbnail pass never adds keys to the items
map; when the derived item id is absent the map is unchanged, and when
it is present only that item's `image` field changes — its other fields,
and every other entry, are untouched. -/
theorem c10_thumb_frame :
    ∀ (uq : String → String) (items : List (String × Item)) (src : String),
      (thumbStep uq items src).map Prod.fst = items.map Prod.fst ∧
      (alookup items (thumbIdOf uq src) = none → thumbStep uq items src = items) ∧
      (∀ k it, alookup items k = some it →
        ∃ it', alookup (thumbStep uq items src) k = some it' ∧
          it'.id = it.id ∧ it'.nameEn = it.nameEn ∧ it'.tier = it.tier ∧
          (k ≠ thumbIdOf uq src → it' = it) ∧
          (k = thumbIdOf uq src →
            it' = { it with image := some ("images/items/" ++ thumbFilenameOf uq src) })) := by
  intro uq items src
  by_cases hmem : (alookup items (thumbIdOf uq src)).isSome = true
  · have hstep : thumbStep uq items src
        = updImage (thumbIdOf uq src) ("images/items/" ++ thumbFilenameOf uq src) items := by
      simp [thumbStep, hmem]
    refine ⟨?_, ?_, ?_⟩
    · rw [hstep]
      exact map_fst_updImage (thumbIdOf uq src) ("images/items/" ++ thumbFilenameOf uq src) items
    · intro hnone
      rw [hnone] at hmem
      simp at hmem
    · intro k it hit
      rw [hstep]
      have hl := alookup_updImage (thumbIdOf uq src) ("images/items/" ++ thumbFilenameOf uq src) items k
      by_cases hk : k = thumbIdOf uq src
      · refine ⟨{ it with image := some ("images/items/" ++ thumbFilenameOf uq src) }, ?_, rfl, rfl, rfl, ?_, ?_⟩
        · rw [hl, if_pos hk, hit]; rfl
        · intro hc; exact absurd hk hc
        · intro _; rfl
      · refine ⟨it, ?_, rfl, rfl, rfl, ?_, ?_⟩
        · rw [hl, if_neg hk]; exact hit
        · intro _; rfl
        · intro hc; exact absurd hc hk
  · have hnone : alookup items (thumbIdOf uq src) = none := by
      cases h : alookup items (thumbIdOf uq src) with
      | none => rfl
      | some v => rw [h] at hmem; simp at hmem
    have hstep : thumbStep uq items src = items := by
      simp [thumbStep, hnone]
    refine ⟨by rw [hstep], fun _ => hstep, ?_⟩
    intro k it hit
    refine ⟨it, by rw [hstep]; exact hit, rfl, rfl, rfl, fun _ => rfl, ?_⟩
    intro hk
    rw [hk, hnone] at hit
    exact absurd hit (by simp)

/-- Witness for C10 at a concrete items map and thumbnail URL. -/
theorem c10_witness :
    ∃ it', alookup (thumbStep (fun s => s) [("Iron_Ore", ⟨"Iron_Ore", "Iron Ore", none, none⟩)]
        "/images/thumb/Iron_Ore.png/64px-Iron_Ore.png") "Iron_Ore" = some it' ∧
      it'.id = "Iron_Ore" ∧ it'.nameEn = "Iron Ore" ∧ it'.tier = none ∧
      ("Iron_Ore" ≠ thumbIdOf (fun s => s) "/images/thumb/Iron_Ore.png/64px-Iron_Ore.png" →
        it' = ⟨"Iron_Ore", "Iron Ore", none, none⟩) ∧
      ("Iron_Ore" = thumbIdOf (fun s => s) "/images/thumb/Iron_Ore.png/64px-Iron_Ore.png" →
        it' = { (⟨"Iron_Ore", "Iron Ore", none, none⟩ : Item) with
                  image := some ("images/items/" ++ thumbFilenameOf (fun s => s) "/images/thumb/Iron_Ore.png/64px-Iron_Ore.png") }) :=
  (c10_thumb_frame (fun s => s) [("Iron_Ore", ⟨"Iron_Ore", "Iron Ore", none, none⟩)]
      "/images/thumb/Iron_Ore.png/64px-Iron_Ore.png").2.2
    "Iron_Ore" ⟨"Iron_Ore", "Iron Ore", none, none⟩ (by decide)

/-! ## Claim C9 -/

theorem infoStep_values {info info' : List (String × String)} {row : InfoRow}
    (h : infoStep info row = Except.ok info')
    (hinv : ∀ kv ∈ info, kv.2 ≠ "") : ∀ kv ∈ info', kv.2 ≠ "" := by
  unfold infoStep at h
  cases hL : rowLabel row with
  | error e => rw [hL] at h; exact absurd h (by simp)
  | ok lab =>
    simp only [hL] at h
    cases lab with
    | none =>
      cases hv : rowValue row with
      | none =>
        simp only [hv, Except.ok.injEq] at h
        subst h; exact hinv
      | some w =>
        simp only [hv, Except.ok.injEq] at h
        subst h; exact hinv
    | some l =>
      cases hv : rowValue row with
      | none =>
        simp only [hv, Except.ok.injEq] at h
        subst h; exact hinv
      | some w =>
        simp only [hv] at h
        by_cases hc : l ≠ [] ∧ w ≠ []
        · rw [if_pos hc] at h
          simp only [Except.ok.injEq] at h
          subst h
          intro kv hkv
          rcases mem_aset hkv with hold | ⟨_, hval⟩
          · exact hinv kv hold
          · rw [hval]
            intro hmk
            have : w = [] := congrArg String.data hmk
            exact hc.2 this
        · rw [if_neg hc] at h
          simp only [Except.ok.injEq] at h
          subst h; exact hinv

theorem getGenAux_values :
    ∀ (rows : List InfoRow) (info m : List (String × String)),
      (∀ kv ∈ info, kv.2 ≠ "") →
      getGenAux info rows = Except.ok m → ∀ kv ∈ m, kv.2 ≠ "" := by
  intro rows
  induction rows with
  | nil =>
    intro info m hinv h
    simp only [getGenAux, Except.ok.injEq] at h
    subst h; exact hinv
  | cons row rest ih =>
    intro info m hinv h
    simp only [getGenAux] at h
    cases hstep : infoStep info row with
    | error e => rw [hstep] at h; exact absurd h (by simp)
    | ok info' =>
      rw [hstep] at h
      exact ih info' m (infoStep_values hstep hinv) h

/-- Claim C9: phase 3 pairs each fetched item-page result with the item
whose name fetched it (the items map is not mutated between gathering
the names and applying the results, so the zip realigns each result with
its own item); for each item the update sets `tier` from the page's
general info when present (general-info values as produced by the parser
are never empty, third conjunct) and overwrites `image` with the path
derived from the page's main image, superseding any earlier value. -/
theorem c9_phase3_pairing :
    ∀ (uq : String → String)
      (fetch : String → Option String × List (String × String))
      (items : List (String × Item)),
      phase3 uq fetch items
        = items.map (fun kv => (kv.1, phase3Step uq kv.2 (fetch kv.2.nameEn))) ∧
      (∀ (it : Item) (res : Option String × List (String × String)),
        (∀ t, alookup res.2 "Tier" = some t → t ≠ "" →
          (phase3Step uq it res).tier = some t) ∧
        (∀ s, res.1 = some s → s ≠ "" →
          (phase3Step uq it res).image
            = some ("images/items/" ++ itemFilenameOf uq s))) ∧
      (∀ (rows : List InfoRow) (m : List (String × String)),
        get_general_info rows = Except.ok m →
        ∀ k v, alookup m k = some v → v ≠ "") := by
  intro uq fetch items
  refine ⟨?_, ?_, ?_⟩
  · simp only [phase3, List.map_map]
    exact zip_map_self (fun kv => fetch kv.2.nameEn)
      (fun p => (p.1.1, phase3Step uq p.1.2 p.2)) items
  · intro it res
    obtain ⟨img, info⟩ := res
    constructor
    · intro t ht htne
      cases img with
      | none => simp [phase3Step, ht, htne]
      | some s =>
        by_cases hs : s = ""
        · simp [phase3Step, ht, htne, hs]
        · simp [phase3Step, ht, htne, hs]
    · intro s hs hsne
      simp only at hs
      subst hs
      cases halo : alookup info "Tier" with
      | none => simp [phase3Step, halo, hsne]
      | some t =>
        by_cases htz : t = ""
        · simp [phase3Step, halo, hsne, htz]
        · simp [phase3Step, halo, hsne, htz]
  · intro rows m h k v hv
    exact getGenAux_values rows [] m (by simp) h (k, v) (alookup_mem_of_some hv)

/-- Witness for C9 at a concrete item, page result and item list. -/
theorem c9_witness :
    (phase3Step (fun s => s) ⟨"Ore", "Ore", some "old", none⟩
        (some "/img/Ore.png", [("Tier", "2")])).tier = some "2" ∧
    (phase3Step (fun s => s) ⟨"Ore", "Ore", some "old", none⟩
        (some "/img/Ore.png", [("Tier", "2")])).image
      = some ("images/items/" ++ itemFilenameOf (fun s => s) "/img/Ore.png") :=
  ⟨((c9_phase3_pairing (fun s => s) (fun _ => (none, [])) []).2.1
      ⟨"Ore", "Ore", some "old", none⟩ (some "/img/Ore.png", [("Tier", "2")])).1
      "2" (by decide) (by decide),
   ((c9_phase3_pairing (fun s => s) (fun _ => (none, [])) []).2.1
      ⟨"Ore", "Ore", some "old", none⟩ (some "/img/Ore.png", [("Tier", "2")])).2
      "/img/Ore.png" rfl (by decide)⟩

/-! ## Claim C6 -/

theorem infoStep_ok_of_label (info : List (String × String)) {row : InfoRow}
    (h : row.labelEls.head? ≠ some none) :
    ∃ info', infoStep info row = Except.ok info' := by
  cases hL : row.labelEls with
  | nil =>
    cases hv : rowValue row with
    | none => exact ⟨info, by simp [infoStep, rowLabel, hL, hv]⟩
    | some w => exact ⟨info, by simp [infoStep, rowLabel, hL, hv]⟩
  | cons o ts =>
    cases o with
    | none => rw [hL] at h; simp at h
    | some t =>
      cases hv : rowValue row with
      | none => exact ⟨info, by simp [infoStep, rowLabel, hL, hv]⟩
      | some w =>
        by_cases hc : pyStrip t.data ≠ [] ∧ w ≠ []
        · exact ⟨aset info (String.mk (pyStrip t.data)) (String.mk w),
            by simp [infoStep, rowLabel, hL, hv, hc]⟩
        · exact ⟨info, by simp [infoStep, rowLabel, hL, hv, hc]⟩

theorem infoStep_skip {row : InfoRow}
    (h : (rowLabel row = Except.ok none ∨ rowLabel row = Except.ok (some [])) ∨
         ((∃ lab, rowLabel row = Except.ok lab) ∧
           (rowValue row = none ∨ rowValue row = some []))) :
    ∀ info, infoStep info row = Except.ok info := by
  intro info
  rcases h with (h | h) | ⟨⟨lab, hlab⟩, hval⟩
  · cases hv : rowValue row with
    | none => simp [infoStep, h, hv]
    | some w => simp [infoStep, h, hv]
  · cases hv : rowValue row with
    | none => simp [infoStep, h, hv]
    | some w => simp [infoStep, h, hv]
  · cases lab with
    | none => rcases hval with hv | hv <;> simp [infoStep, hlab, hv]
    | some l => rcases hval with hv | hv <;> simp [infoStep, hlab, hv]

theorem getGenAux_skip {row : InfoRow}
    (hstep : ∀ info, infoStep info row = Except.ok info) :
    ∀ (r1 : List InfoRow) (info : List (String × String)) (r2 : List InfoRow),
      getGenAux info (r1 ++ row :: r2) = getGenAux info (r1 ++ r2) := by
  intro r1
  induction r1 with
  | nil => intro info r2; simp [getGenAux, hstep info]
  | cons r r1' ih =>
    intro info r2
    simp only [List.cons_append, getGenAux]
    cases infoStep info r with
    | error e => rfl
    | ok info' => exact ih info' r2

theorem getGenAux_provenance :
    ∀ (rows : List InfoRow) (info m : List (String × String)),
      getGenAux info rows = Except.ok m →
      ∀ kv ∈ m, kv ∈ info ∨ ∃ row ∈ rows, ∃ t vt,
        row.labelEls.head? = some (some t) ∧ kv.1 = String.mk (pyStrip t.data) ∧
        row.valueEls.head? = some vt ∧
        kv.2 = String.mk (pyStrip (pyJoin [' '] (vt.map String.data))) := by
  intro rows
  induction rows with
  | nil =>
    intro info m h kv hkv
    simp only [getGenAux, Except.ok.injEq] at h
    subst h
    exact Or.inl hkv
  | cons row rest ih =>
    intro info m h kv hkv
    simp only [getGenAux] at h
    cases hstep : infoStep info row with
    | error e => rw [hstep] at h; exact absurd h (by simp)
    | ok info' =>
      rw [hstep] at h
      rcases ih info' m h kv hkv with hin | ⟨row', hrow', hrest⟩
      · unfold infoStep at hstep
        cases hL : rowLabel row with
        | error e => rw [hL] at hstep; exact absurd hstep (by simp)
        | ok lab =>
          simp only [hL] at hstep
          cases lab with
          | none =>
            cases hv : rowValue row with
            | none =>
              simp only [hv, Except.ok.injEq] at hstep
              subst hstep
              exact Or.inl hin
            | some w =>
              simp only [hv, Except.ok.injEq] at hstep
              subst hstep
              exact Or.inl hin
          | some l =>
            cases hv : rowValue row with
            | none =>
              simp only [hv, Except.ok.injEq] at hstep
              subst hstep
              exact Or.inl hin
            | some w =>
              simp only [hv] at hstep
              by_cases hc : l ≠ [] ∧ w ≠ []
              · rw [if_pos hc] at hstep
                simp only [Except.ok.injEq] at hstep
                subst hstep
                rcases mem_aset hin with hold | ⟨hk, hv2⟩
                · exact Or.inl hold
                · right
                  refine ⟨row, by simp, ?_⟩
                  unfold rowLabel at hL
                  cases hLe : row.labelEls with
                  | nil => simp only [hLe] at hL; exact absurd hL (by simp)
                  | cons o ts =>
                    cases o with
                    | none => simp only [hLe] at hL; exact absurd hL (by simp)
                    | some t =>
                      simp only [hLe, Except.ok.injEq, Option.some.injEq] at hL
                      unfold rowValue at hv
                      cases hVe : row.valueEls with
                      | nil => simp only [hVe] at hv; exact absurd hv (by simp)
                      | cons vt vts =>
                        simp only [hVe, Option.some.injEq] at hv
                        refine ⟨t, vt, by simp [hLe], ?_, by simp [hVe], ?_⟩
                        · rw [hk, ← hL]
                        · rw [hv2, ← hv]
              · rw [if_neg hc] at hstep
                simp only [Except.ok.injEq] at hstep
                subst hstep
                exact Or.inl hin
      · exact Or.inr ⟨row', by simp [hrow'], hrest⟩

/-- Claim C6 (amended): `get_general_info` maps each surviving row to an
entry whose key is the label element's trimmed text and whose value is
the space-joined trimmed concatenation of the descendant text of the
first value element; rows with a missing label element, empty trimmed
label, missing value element or empty value yield no entry; a present
label element whose `.text` is `None` raises instead of being skipped
(so the function returns a mapping only when no such row occurs). -/
theorem c6_general_info :
    (∀ rows : List InfoRow, (∀ row ∈ rows, row.labelEls.head? ≠ some none) →
      ∃ m, get_general_info rows = Except.ok m) ∧
    (∀ row : InfoRow,
      ((rowLabel row = Except.ok none ∨ rowLabel row = Except.ok (some [])) ∨
        ((∃ lab, rowLabel row = Except.ok lab) ∧
          (rowValue row = none ∨ rowValue row = some []))) →
      ∀ (r1 r2 : List InfoRow) (info : List (String × String)),
        getGenAux info (r1 ++ row :: r2) = getGenAux info (r1 ++ r2)) ∧
    (∀ (info : List (String × String)) (row : InfoRow) (l w : List Char),
      rowLabel row = Except.ok (some l) → l ≠ [] → rowValue row = some w → w ≠ [] →
      infoStep info row = Except.ok (aset info (String.mk l) (String.mk w))) ∧
    (get_general_info [⟨[some " Tier "], [[" ", "2 "]]⟩] = Except.ok [("Tier", "2")]) ∧
    (∀ (rows : List InfoRow) (m : List (String × String)),
      get_general_info rows = Except.ok m →
      ∀ kv ∈ m, ∃ row ∈ rows, ∃ t vt,
        row.labelEls.head? = some (some t) ∧ kv.1 = String.mk (pyStrip t.data) ∧
        row.valueEls.head? = some vt ∧
        kv.2 = String.mk (pyStrip (pyJoin [' '] (vt.map String.data)))) := by
  refine ⟨?_, ?_, ?_, ?_, ?_⟩
  · intro rows h
    suffices hgen : ∀ (rs : List InfoRow) (info : List (String × String)),
        (∀ row ∈ rs, row.labelEls.head? ≠ some none) →
        ∃ m, getGenAux info rs = Except.ok m by
      exact hgen rows [] h
    intro rs
    induction rs with
    | nil => intro info _; exact ⟨info, rfl⟩
    | cons row rest ih =>
      intro info hall
      obtain ⟨info', hstep⟩ := infoStep_ok_of_label info (hall row (by simp))
      obtain ⟨m, hm⟩ := ih info' (fun r hr => hall r (by simp [hr]))
      exact ⟨m, by simp [getGenAux, hstep, hm]⟩
  · intro row h r1 r2 info
    exact getGenAux_skip (infoStep_skip h) r1 info r2
  · intro info row l w hl hlne hv hwne
    simp [infoStep, hl, hv, hlne, hwne]
  · rfl
  · intro rows m h kv hkv
    rcases getGenAux_provenance rows [] m h kv hkv with hin | hout
    · simp at hin
    · exact hout

/-- Counterexample for C6 as stated: a row whose label element is
present but has no text does not "yield no entry" — `get_general_info`
raises `AttributeError` instead of returning a mapping. -/
theorem c6_counterexample :
    get_general_info [⟨[none], [[" 2 "]]⟩]
      = Except.error "AttributeError: NoneType has no attribute strip" := rfl

/-- Witness for C6 at concrete rows. -/
theorem c6_witness :
    (∃ m, get_general_info [⟨[some " Tier "], [[" 2 "]]⟩] = Except.ok m) ∧
    getGenAux [] ([] ++ (⟨[], [["x"]]⟩ : InfoRow) :: []) = getGenAux [] ([] ++ []) ∧
    infoStep [] ⟨[some " Tier "], [[" 2 "]]⟩
      = Except.ok (aset [] (String.mk ['T', 'i', 'e', 'r']) (String.mk ['2'])) :=
  ⟨c6_general_info.1 [⟨[some " Tier "], [[" 2 "]]⟩] (by decide),
   c6_general_info.2.1 ⟨[], [["x"]]⟩ (Or.inl (Or.inl rfl)) [] [] [],
   c6_general_info.2.2.1 [] ⟨[some " Tier "], [[" 2 "]]⟩
     ['T', 'i', 'e', 'r'] ['2'] rfl (by decide) rfl (by decide)⟩

/-! ## Claim C5 -/

theorem get_recipes_skip {row : Row} (h : rowRecipe row = Except.ok none) :
    ∀ (r1 r2 : List Row), get_recipes (r1 ++ row :: r2) = get_recipes (r1 ++ r2) := by
  intro r1
  induction r1 with
  | nil => intro r2; simp [get_recipes, h]
  | cons r r1' ih =>
    intro r2
    simp only [List.cons_append, get_recipes, List.append_eq]
    rw [ih r2]

/-- The single recipe-table row of the C5 scenario. -/
def c5Row : Row := ⟨[some "Ore"], [some "2"], [some "Ingot"], [some "1"], some (some "5s")⟩

/-- The raw recipe that `get_recipes` parses from the C5 scenario row. -/
def c5Raw : RawRecipe :=
  { inputs := [{ name := some "Ore", quantity := 2 }]
    outputs := [{ name := some "Ingot", quantity := 1 }]
    time := "5s" }

/-- The aggregation state produced by the C5 scenario. -/
def c5Out : St :=
  { items := [("Ore", { id := "Ore", nameEn := "Ore", image := none, tier := none }),
              ("Ingot", { id := "Ingot", nameEn := "Ingot", image := none, tier := none })]
    facilities := [("Fac", { id := "Fac", name := "Fac", tier := none,
                             powerConsumption := none,
                             supportedRecipes := ["Fac__Ingot__1"], image := none })]
    recipes := [("Fac__Ingot__1", { id := "Fac__Ingot__1", facilityId := "Fac",
                                    inputs := [{ itemId := "Ore", amount := 2 }],
                                    outputs := [{ itemId := "Ingot", amount := 1 }],
                                    craftingTime := "5s" })] }

/-- Claim C5 (amended): the one-row scenario — input tooltip "Ore" with
count "2", output tooltip "Ingot" with count "1", time cell "5s" —
yields exactly the described recipe record, items map and facility
record; a row with no input tooltips is always skipped entirely; a row
with no output tooltips is skipped provided its input counts parse
(otherwise the input parsing, which runs first, aborts the run). -/
theorem c5_end_to_end :
    (get_recipes [c5Row] = Except.ok [c5Raw]) ∧
    (∀ uq : String → String,
      phase2 uq [("Fac", ⟨none, [], [], [c5Raw]⟩)] = Except.ok c5Out) ∧
    (∀ (r1 r2 : List Row) (row : Row), row.inputNames = [] →
      get_recipes (r1 ++ row :: r2) = get_recipes (r1 ++ r2)) ∧
    (∀ (r1 r2 : List Row) (row : Row) (ins : List RawMat),
      row.inputNames ≠ [] → row.outputNames = [] →
      exMapM parseMat (row.inputNames.zip row.inputCounts) = Except.ok ins →
      get_recipes (r1 ++ row :: r2) = get_recipes (r1 ++ r2)) := by
  refine ⟨rfl, ?_, ?_, ?_⟩
  · intro uq
    rfl
  · intro r1 r2 row hin
    exact get_recipes_skip (by simp [rowRecipe, hin]) r1 r2
  · intro r1 r2 row ins hin hout hins
    refine get_recipes_skip ?_ r1 r2
    simp only [rowRecipe, if_neg hin, hins, hout]

/-- Counterexample for C5 as stated: a row with NO output tooltips but a
malformed input count is not "skipped entirely" — the input parsing runs
first and raises, aborting the run. -/
theorem c5_counterexample :
    get_recipes [⟨[some "A"], [some "x"], [], [], some (some "5s")⟩]
      = Except.error "ValueError: invalid literal for int()" := rfl

/-- Witness for C5's conditional parts at concrete rows. -/
theorem c5_witness :
    get_recipes ([] ++ (⟨[], [], [], [], none⟩ : Row) :: []) = get_recipes ([] ++ []) ∧
    get_recipes ([] ++ (⟨[some "A"], [some "2"], [], [], none⟩ : Row) :: [])
      = get_recipes ([] ++ []) :=
  ⟨c5_end_to_end.2.2.1 [] [] ⟨[], [], [], [], none⟩ rfl,
   c5_end_to_end.2.2.2 [] [] ⟨[some "A"], [some "2"], [], [], none⟩
     [{ name := some "A", quantity := 2 }] (by decide) rfl rfl⟩

/-! ## Claim C8 -/

/-- Claim C8 (amended): an input item-count element with no text content
(at a position the `zip` pairs up) makes `get_recipes` raise and abort;
but an input tooltip with NO positionally corresponding count element is
silently dropped — `zip` truncates, so a surviving recipe has exactly
`min(#tooltips, #counts)` inputs and no error is raised. -/
theorem c8_missing_count :
    (∀ (row : Row) (rest : List Row),
      row.inputNames ≠ [] →
      (∃ n, ((n : Option String), (none : Option String)) ∈ row.inputNames.zip row.inputCounts) →
      ∃ e, get_recipes (row :: rest) = Except.error e) ∧
    (∀ (row : Row) (r : RawRecipe), rowRecipe row = Except.ok (some r) →
      r.inputs.length = min row.inputNames.length row.inputCounts.length) := by
  constructor
  · intro row rest hin ⟨n, hmem⟩
    have hpm : parseMat (n, none) = Except.error "AttributeError: NoneType has no attribute strip" := rfl
    obtain ⟨e', he'⟩ := exMapM_error_of_mem hmem hpm
    refine ⟨e', ?_⟩
    simp only [get_recipes, rowRecipe, if_neg hin, he']
  · intro row r h
    unfold rowRecipe at h
    by_cases hin : row.inputNames = []
    · rw [if_pos hin] at h
      exact absurd h (by simp)
    · rw [if_neg hin] at h
      cases hm : exMapM parseMat (row.inputNames.zip row.inputCounts) with
      | error e => rw [hm] at h; exact absurd h (by simp)
      | ok ins =>
        simp only [hm] at h
        cases hon : row.outputNames with
        | nil => simp only [hon] at h; exact absurd h (by simp)
        | cons n0 ns =>
          simp only [hon] at h
          cases hoc : row.outputCounts with
          | nil => simp only [hoc] at h; exact absurd h (by simp)
          | cons c0 cs =>
            simp only [hoc] at h
            cases hpc : parseCount c0 with
            | error e => simp only [hpc] at h; exact absurd h (by simp)
            | ok q =>
              simp only [hpc] at h
              cases htd : row.td3 with
              | none => simp only [htd] at h; exact absurd h (by simp)
              | some txt =>
                simp only [htd] at h
                cases txt with
                | none => exact absurd h (by simp)
                | some t =>
                  simp only [Except.ok.injEq, Option.some.injEq] at h
                  have hi : r.inputs = ins := by rw [← h]
                  rw [hi, exMapM_length hm, List.length_zip]

/-- Counterexample for C8 as stated: two input tooltips paired with a
single count element produce NO error — `zip` truncates and the second
input is silently dropped from the recipe record. -/
theorem c8_counterexample :
    get_recipes [⟨[some "A", some "B"], [some "2"], [some "O"], [some "1"], some (some "5s")⟩]
      = Except.ok [{ inputs := [{ name := some "A", quantity := 2 }],
                     outputs := [{ name := some "O", quantity := 1 }],
                     time := "5s" }] := rfl

/-- Witness for C8 at concrete rows. -/
theorem c8_witness :
    (∃ e, get_recipes [⟨[some "A"], [none], [some "O"], [some "1"], some (some "5s")⟩]
      = Except.error e) ∧
    ({ inputs := [{ name := some "A", quantity := 2 }],
       outputs := [{ name := some "O", quantity := 1 }],
       time := "5s" } : RawRecipe).inputs.length = min 2 1 :=
  ⟨c8_missing_count.1 ⟨[some "A"], [none], [some "O"], [some "1"], some (some "5s")⟩ []
      (by decide) ⟨some "A", by decide⟩,
   c8_missing_count.2 ⟨[some "A", some "B"], [some "2"], [some "O"], [some "1"], some (some "5s")⟩
      { inputs := [{ name := some "A", quantity := 2 }],
        outputs := [{ name := some "O", quantity := 1 }],
        time := "5s" } rfl⟩

/-! ## Claim C1 -/

theorem pySplit_some (sep : List Char) (hs : sep ≠ []) {l b a : List Char}
    (h : splitFirst sep l = some (b, a)) :
    pySplit sep l = b :: pySplit sep a := by
  rw [pySplit_eq sep hs l, h]

theorem pySplit_none (sep : List Char) (hs : sep ≠ []) {l : List Char}
    (h : splitFirst sep l = none) : pySplit sep l = [l] := by
  rw [pySplit_eq sep hs l, h]

theorem splitFirst_single_not_mem {c : Char} :
    ∀ {l b a : List Char}, splitFirst [c] l = some (b, a) → c ∉ b := by
  intro l
  induction l with
  | nil => intro b a h; simp [splitFirst] at h
  | cons x xs ih =>
    intro b a h
    by_cases hp : lpre [c] (x :: xs) = true
    · rw [splitFirst, if_pos hp] at h
      simp only [Option.some.injEq, Prod.mk.injEq] at h
      obtain ⟨hb, ha⟩ := h
      subst hb
      simp
    · rw [splitFirst, if_neg hp] at h
      have hcx : ¬ c = x := by
        intro hc; exact hp (by simp [lpre, hc])
      cases hsf : splitFirst [c] xs with
      | none => rw [hsf] at h; exact absurd h (by simp)
      | some p =>
        obtain ⟨b', a'⟩ := p
        rw [hsf] at h
        simp only [Option.some.injEq, Prod.mk.injEq] at h
        obtain ⟨hb, ha⟩ := h
        subst hb
        intro hmem
        rcases List.mem_cons.1 hmem with heq | hmem'
        · exact hcx heq
        · exact ih hsf hmem'

theorem splitFirst_single_none {c : Char} :
    ∀ {l : List Char}, splitFirst [c] l = none → c ∉ l := by
  intro l
  induction l with
  | nil => intro h; simp
  | cons x xs ih =>
    intro h
    by_cases hp : lpre [c] (x :: xs) = true
    · rw [splitFirst, if_pos hp] at h; exact absurd h (by simp)
    · rw [splitFirst, if_neg hp] at h
      have hcx : ¬ c = x := by
        intro hc; exact hp (by simp [lpre, hc])
      cases hsf : splitFirst [c] xs with
      | none =>
        intro hmem
        rcases List.mem_cons.1 hmem with heq | hmem'
        · exact hcx heq
        · exact ih hsf hmem'
      | some p =>
        obtain ⟨b', a'⟩ := p
        rw [hsf] at h
        exact absurd h (by simp)

theorem takeWhile_ne_eq_self {c : Char} {l : List Char} (h : c ∉ l) :
    l.takeWhile (fun x => x ≠ c) = l :=
  takeWhile_eq_self _ l (fun _d hd => decide_eq_true (fun hdc => h (hdc ▸ hd)))

theorem headD_pySplit_single (c : Char) (l : List Char) :
    (pySplit [c] l).headD [] = l.takeWhile (fun x => x ≠ c) := by
  cases hsf : splitFirst [c] l with
  | none =>
    rw [pySplit_none [c] (by simp) hsf]
    simp only [List.headD]
    exact (takeWhile_ne_eq_self (splitFirst_single_none hsf)).symm
  | some p =>
    obtain ⟨b, a⟩ := p
    rw [pySplit_some [c] (by simp) hsf]
    simp only [List.headD]
    have happ := splitFirst_append hsf
    have hnb := splitFirst_single_not_mem hsf
    have hl : l = b ++ c :: a := by simpa using happ
    rw [hl]
    have hstop : (fun x => decide (x ≠ c)) c = false := by simp
    exact (takeWhile_all_append _ hstop b a
      (fun d hd => decide_eq_true (show d ≠ c from fun hdc => hnb (hdc ▸ hd)))).symm

theorem splitFirst_qm_count {c : Char} {l b q : List Char}
    (h : splitFirst [c] l = some (b, q)) (hcount : l.count c ≤ 1) :
    splitFirst [c] q = none := by
  have happ := splitFirst_append h
  cases hq : splitFirst [c] q with
  | none => rfl
  | some p =>
    obtain ⟨b2, q2⟩ := p
    have h2 := splitFirst_append hq
    exfalso
    have hcq : c ∈ q := by rw [h2]; simp
    have hge : 1 ≤ q.count c := List.one_le_count_iff.2 hcq
    have h2le : 2 ≤ l.count c := by
      rw [happ]
      simp only [List.count_append]
      have h2c : ([c] : List Char).count c = 1 := by simp
      omega
    omega

/-- Claim C1 (amended): URLs without `/thumb/` are returned unchanged;
for URLs containing `/thumb/` with AT MOST ONE `?`, the result is
exactly `/images/` + the first path segment after `/thumb/` + the
original query string, and the round-trip example holds.  (With two or
more `?` the source reattaches only the text between the first and the
second `?`, not the whole query string — see the counterexample.) -/
theorem c1_normalize :
    (∀ src : String, pyIn "/thumb/".data src.data = false →
      normalize_item_image_url src = src) ∧
    (∀ src : String, src.data.count '?' ≤ 1 →
      normalize_item_image_url src = normalizeSpecC1 src) ∧
    normalize_item_image_url
        "https://endfield.wiki.gg/images/thumb/Iron_Ore.png/64px-Iron_Ore.png?foo=bar"
      = "/images/Iron_Ore.png?foo=bar" := by
  refine ⟨?_, ?_, by decide⟩
  · intro src h
    simp [normalize_item_image_url, h]
  · intro src hq
    unfold normalize_item_image_url normalizeSpecC1
    cases hsf : splitFirst "/thumb/".data src.data with
    | none => simp [pyIn, hsf]
    | some p =>
      obtain ⟨b, rest⟩ := p
      have hguard : pyIn "/thumb/".data src.data = true := by simp [pyIn, hsf]
      rw [hguard]
      simp only [if_true]
      have hps : pySplit "/thumb/".data src.data = b :: pySplit "/thumb/".data rest :=
        pySplit_some "/thumb/".data (by decide) hsf
      -- the filename parts agree
      have hfile : (pySplit ['/'] ((pySplit "/thumb/".data src.data).getD 1 [])).headD []
          = rest.takeWhile (fun c => c ≠ '/') := by
        rw [hps]
        cases hps2 : pySplit "/thumb/".data rest with
        | nil => exact absurd hps2 (pySplit_ne_nil _ _)
        | cons p0 ps' =>
          have hgd : (b :: p0 :: ps').getD 1 [] = p0 := rfl
          rw [hgd, headD_pySplit_single]
          cases hsf2 : splitFirst "/thumb/".data rest with
          | none =>
            rw [pySplit_none "/thumb/".data (by decide) hsf2] at hps2
            simp only [List.cons.injEq] at hps2
            rw [hps2.1]
          | some p2 =>
            obtain ⟨b2, a2⟩ := p2
            rw [pySplit_some "/thumb/".data (by decide) hsf2] at hps2
            simp only [List.cons.injEq] at hps2
            rw [← hps2.1]
            have happ2 := splitFirst_append hsf2
            have hshape : rest = b2 ++ '/' :: ("thumb/".data ++ a2) := by
              rw [happ2]
              simp
            have hstop : (fun x => decide (x ≠ '/')) '/' = false := by simp
            rw [hshape, takeWhile_append_stop _ hstop]
      -- the query parts agree
      have hquery : (if pyIn ['?'] src.data then
            '?' :: ((pySplit ['?'] src.data).getD 1 []) else [])
          = (match splitFirst ['?'] src.data with
             | none => []
             | some (_, q) => '?' :: q) := by
        cases hq2 : splitFirst ['?'] src.data with
        | none => simp [pyIn, hq2]
        | some pq =>
          obtain ⟨bq, q⟩ := pq
          have hin : pyIn ['?'] src.data = true := by simp [pyIn, hq2]
          rw [hin, if_pos rfl]
          have hq0 : splitFirst ['?'] q = none := splitFirst_qm_count hq2 hq
          rw [pySplit_some ['?'] (by simp) hq2, pySplit_none ['?'] (by simp) hq0]
          rfl
      rw [hfile, hquery]

/-- Counterexample for C1 as stated: with two `?` in the URL, the code
reattaches only the text between the first and second `?`, not the
original query string. -/
theorem c1_counterexample :
    normalize_item_image_url "/thumb/a/b?x?y" = "/images/a?x" ∧
    normalizeSpecC1 "/thumb/a/b?x?y" = "/images/a?x?y" ∧
    normalize_item_image_url "/thumb/a/b?x?y" ≠ normalizeSpecC1 "/thumb/a/b?x?y" :=
  ⟨by decide, by decide, by decide⟩

/-- Witness for C1 at concrete URLs. -/
theorem c1_witness :
    normalize_item_image_url "nothumb" = "nothumb" ∧
    normalize_item_image_url "/thumb/x/y?q=1" = normalizeSpecC1 "/thumb/x/y?q=1" :=
  ⟨c1_normalize.1 "nothumb" (by decide),
   c1_normalize.2.1 "/thumb/x/y?q=1" (by decide)⟩

/-! ## Claim C2 -/

theorem str_data_append (s t : String) : (s ++ t).data = s.data ++ t.data := by
  cases s
  cases t
  rfl

theorem rid_data (f o : String) (s : Nat) :
    (ridStr f o s).data
      = f.data ++ '_' :: '_' :: (o.data ++ '_' :: '_' :: (natStr s).data) := by
  have h2 : ("__" : String).data = ['_', '_'] := rfl
  simp [ridStr, str_data_append, h2]

theorem rid_pre (f o : String) (s : Nat) :
    (ridStr f o s).data
      = (f ++ "__").data ++ (o.data ++ '_' :: '_' :: (natStr s).data) := by
  have h2 : ("__" : String).data = ['_', '_'] := rfl
  rw [rid_data, str_data_append, h2]
  simp

theorem rid_inj {f o1 o2 : String} {s1 s2 : Nat}
    (h : ridStr f o1 s1 = ridStr f o2 s2) : o1 = o2 ∧ s1 = s2 := by
  have hd := congrArg String.data h
  rw [rid_data, rid_data] at hd
  have hd2 := List.append_cancel_left hd
  simp only [List.cons.injEq, true_and] at hd2
  obtain ⟨ho, hs⟩ := decode_us o1.data o2.data (natStr s1).data (natStr s2).data
    (natStr_digits s1) (natStr_digits s2) hd2
  exact ⟨string_data_inj ho, natStr_inj (string_data_inj hs)⟩

theorem genRecipes_ids (fid : String) :
    ∀ (rs : List RawRecipe) (cnt : List (String × Nat)) (es : List RecipeEntry),
      genRecipes fid cnt rs = Except.ok es →
      (∀ e ∈ es, e.facilityId = fid ∧
        ∃ o s, e.id = ridStr fid o s ∧ (alookup cnt o).getD 0 < s) ∧
      (es.map (fun e => e.id)).Nodup := by
  intro rs
  induction rs with
  | nil =>
    intro cnt es h
    simp only [genRecipes, Except.ok.injEq] at h
    subst h
    exact ⟨by simp, by simp⟩
  | cons r rs ih =>
    intro cnt es h
    simp only [genRecipes] at h
    cases ho : r.outputs with
    | nil => simp only [ho] at h; exact absurd h (by simp)
    | cons o os =>
      simp only [ho] at h
      cases hpn : pyName o.name with
      | error e => simp only [hpn] at h; exact absurd h (by simp)
      | ok firstOut =>
        simp only [hpn] at h
        cases hins : exMapM matRef r.inputs with
        | error e => simp only [hins] at h; exact absurd h (by simp)
        | ok ins =>
          simp only [hins] at h
          cases houts : exMapM matRef (o :: os) with
          | error e => simp only [houts] at h; exact absurd h (by simp)
          | ok outs =>
            simp only [houts] at h
            cases hrest : genRecipes fid
                (aset cnt firstOut ((alookup cnt firstOut).getD 0 + 1)) rs with
            | error e => simp only [hrest] at h; exact absurd h (by simp)
            | ok rest =>
              simp only [hrest, Except.ok.injEq] at h
              subst h
              obtain ⟨ihprop, ihnodup⟩ := ih
                (aset cnt firstOut ((alookup cnt firstOut).getD 0 + 1)) rest hrest
              constructor
              · intro e he
                rcases List.mem_cons.1 he with rfl | he'
                · exact ⟨rfl, firstOut, (alookup cnt firstOut).getD 0 + 1, rfl, by omega⟩
                · obtain ⟨hfid, o', s', hid, hlt⟩ := ihprop e he'
                  refine ⟨hfid, o', s', hid, ?_⟩
                  by_cases ho' : o' = firstOut
                  · subst ho'
                    rw [alookup_aset_self] at hlt
                    simp only [Option.getD_some] at hlt
                    omega
                  · rw [alookup_aset_ne cnt firstOut o' _ ho'] at hlt
                    exact hlt
              · simp only [List.map_cons, List.nodup_cons]
                refine ⟨?_, ihnodup⟩
                intro hmem
                obtain ⟨e, he, hide⟩ := List.mem_map.1 hmem
                obtain ⟨hfid, o', s', hid, hlt⟩ := ihprop e he
                rw [hid] at hide
                obtain ⟨ho', hs'⟩ := rid_inj hide
                subst ho'
                rw [alookup_aset_self] at hlt
                simp only [Option.getD_some] at hlt
                omega

theorem phase2RecipeIds_pre :
    ∀ (inp : List (String × ParsedFacility)) (ids : List String),
      phase2RecipeIds inp = Except.ok ids →
      ∀ id ∈ ids, ∃ nm ∈ inp.map Prod.fst, ∃ t, id.data = (pyId nm ++ "__").data ++ t := by
  intro inp
  induction inp with
  | nil =>
    intro ids h id hid
    simp only [phase2RecipeIds, Except.ok.injEq] at h
    subst h
    simp at hid
  | cons p rest ih =>
    obtain ⟨nm, pf⟩ := p
    intro ids h id hid
    simp only [phase2RecipeIds] at h
    cases hg : genRecipes (pyId nm) [] pf.recipes with
    | error e => simp only [hg] at h; exact absurd h (by simp)
    | ok es =>
      simp only [hg] at h
      cases hr : phase2RecipeIds rest with
      | error e => simp only [hr] at h; exact absurd h (by simp)
      | ok ids' =>
        simp only [hr, Except.ok.injEq] at h
        subst h
        rcases List.mem_append.1 hid with hid1 | hid2
        · obtain ⟨e, he, hide⟩ := List.mem_map.1 hid1
          obtain ⟨hfid, o, s, hids, hlt⟩ := ((genRecipes_ids (pyId nm) pf.recipes [] es hg).1) e he
          refine ⟨nm, by simp, o.data ++ '_' :: '_' :: (natStr s).data, ?_⟩
          rw [← hide, hids, rid_pre]
        · obtain ⟨nm', hnm', t, ht⟩ := ih ids' hr id hid2
          exact ⟨nm', by simp [hnm'], t, ht⟩

/-- Two facility names whose derived id prefixes overlap. -/
def nameClash (a b : String) : Bool :=
  lpre (pyId a ++ "__").data (pyId b ++ "__").data
    || lpre (pyId b ++ "__").data (pyId a ++ "__").data

/-- No facility name's derived id prefix is a prefix of another's. -/
def noClash : List String → Bool
  | [] => true
  | n :: rest => rest.all (fun m => !(nameClash n m)) && noClash rest

theorem noClash_cons {n : String} {rest : List String} (h : noClash (n :: rest) = true) :
    (∀ m ∈ rest, nameClash n m = false) ∧ noClash rest = true := by
  simp only [noClash, Bool.and_eq_true, List.all_eq_true, Bool.not_eq_true'] at h
  exact h

theorem clash_of_pre {a b id : String} {t1 t2 : List Char}
    (h1 : id.data = (pyId a ++ "__").data ++ t1)
    (h2 : id.data = (pyId b ++ "__").data ++ t2) :
    nameClash a b = true := by
  have h := h1.symm.trans h2
  rcases append_eq_append_pre h with ⟨t, ht⟩ | ⟨t, ht⟩
  · have hp : lpre (pyId a ++ "__").data (pyId b ++ "__").data = true :=
      (lpre_iff _ _).2 ⟨t, ht⟩
    simp only [nameClash, Bool.or_eq_true]
    exact Or.inl hp
  · have hp : lpre (pyId b ++ "__").data (pyId a ++ "__").data = true :=
      (lpre_iff _ _).2 ⟨t, ht⟩
    simp only [nameClash, Bool.or_eq_true]
    exact Or.inr hp

/-- Claim C2 (amended): every recipe id has the form
`{facilityId}__{firstOutputItemId}__{seq}` with the sequence number
starting at 1 and incrementing per distinct first-output item within the
facility (second conjunct: a facility producing the same first output
twice gets suffixes `__1` and `__2`); the generated ids are pairwise
distinct PROVIDED no facility's `{facilityId}__` prefix is a prefix of
another's (first conjunct) — ids within one facility never collide, but
names like "A B" and "A_B" map to the same facility id and then produce
the same recipe id twice (see the counterexample). -/
theorem c2_recipe_ids :
    (∀ (inp : List (String × ParsedFacility)) (ids : List String),
      noClash (inp.map Prod.fst) = true →
      phase2RecipeIds inp = Except.ok ids → ids.Nodup) ∧
    (∀ (fid nm t : String) (q : Int) (es : List RecipeEntry),
      genRecipes fid []
          [⟨[], [⟨some nm, q⟩], t⟩, ⟨[], [⟨some nm, q⟩], t⟩] = Except.ok es →
      es.map (fun e => e.id) = [ridStr fid (pyId nm) 1, ridStr fid (pyId nm) 2]) := by
  constructor
  · intro inp
    induction inp with
    | nil =>
      intro ids _ hok
      simp only [phase2RecipeIds, Except.ok.injEq] at hok
      subst hok
      simp
    | cons p rest ih =>
      obtain ⟨nm, pf⟩ := p
      intro ids hnc hok
      simp only [List.map_cons] at hnc
      obtain ⟨hcl, hnc'⟩ := noClash_cons hnc
      simp only [phase2RecipeIds] at hok
      cases hg : genRecipes (pyId nm) [] pf.recipes with
      | error e => simp only [hg] at hok; exact absurd hok (by simp)
      | ok es =>
        simp only [hg] at hok
        cases hr : phase2RecipeIds rest with
        | error e => simp only [hr] at hok; exact absurd hok (by simp)
        | ok ids' =>
          simp only [hr, Except.ok.injEq] at hok
          subst hok
          have h1 : (es.map (fun e => e.id)).Nodup :=
            (genRecipes_ids (pyId nm) pf.recipes [] es hg).2
          have h2 : ids'.Nodup := ih ids' hnc' hr
          refine List.Nodup.append h1 h2 ?_
          intro id hid1 hid2
          obtain ⟨e, he, hide⟩ := List.mem_map.1 hid1
          obtain ⟨hfid, o, s, hids, hlt⟩ :=
            ((genRecipes_ids (pyId nm) pf.recipes [] es hg).1) e he
          have hpre1 : id.data = (pyId nm ++ "__").data
              ++ (o.data ++ '_' :: '_' :: (natStr s).data) := by
            rw [← hide, hids, rid_pre]
          obtain ⟨nm', hnm', t, hpre2⟩ := phase2RecipeIds_pre rest ids' hr id hid2
          have := clash_of_pre hpre1 hpre2
          rw [hcl nm' hnm'] at this
          exact absurd this (by simp)
  · intro fid nm t q es hg
    simp only [genRecipes, pyName, exMapM, matRef, alookup, aset,
      Option.getD_none, Option.getD_some, if_pos] at hg
    simp only [Except.ok.injEq] at hg
    rw [← hg]
    simp

/-- The duplicate-id input for C2: the distinct facility names "A B" and
"A_B" both derive facility id "A_B", each producing first output "X". -/
def c2cexInput : List (String × ParsedFacility) :=
  [("A B", ⟨none, [], [], [⟨[], [⟨some "X", 1⟩], "t"⟩]⟩),
   ("A_B", ⟨none, [], [], [⟨[], [⟨some "X", 1⟩], "t"⟩]⟩)]

/-- Counterexample for C2 as stated: the loop generates the same recipe
id twice, so the recipes dict retains only one of the two recipes. -/
theorem c2_counterexample :
    phase2RecipeIds c2cexInput = Except.ok ["A_B__X__1", "A_B__X__1"] ∧
    ¬ (["A_B__X__1", "A_B__X__1"] : List String).Nodup ∧
    (phase2 (fun s => s) c2cexInput).map (fun st => st.recipes.length) = Except.ok 1 :=
  ⟨rfl, by decide, rfl⟩

/-- The two generated entries when one facility produces "X" twice. -/
def c2wEs : List RecipeEntry :=
  [⟨"F__X__1", "F", [], [⟨"X", 1⟩], "t"⟩, ⟨"F__X__2", "F", [], [⟨"X", 1⟩], "t"⟩]

/-- Witness for C2 at concrete inputs. -/
theorem c2_witness :
    (["F__X__1"] : List String).Nodup ∧
    c2wEs.map (fun e => e.id) = [ridStr "F" (pyId "X") 1, ridStr "F" (pyId "X") 2] :=
  ⟨c2_recipe_ids.1 [("F", ⟨none, [], [], [⟨[], [⟨some "X", 1⟩], "t"⟩]⟩)] ["F__X__1"]
      (by decide) rfl,
   c2_recipe_ids.2 "F" "X" "t" 1 c2wEs rfl⟩

/-! ## Claim C3 -/

theorem alookup_isSome_append {α : Type} (m1 m2 : List (String × α)) (k : String)
    (h : (alookup m1 k).isSome = true) : (alookup (m1 ++ m2) k).isSome = true := by
  rw [alookup_append]
  cases hl : alookup m1 k with
  | none => rw [hl] at h; simp at h
  | some v => simp

theorem insertItem_mono {items : List (String × Item)} {k : String} (n : String)
    (h : (alookup items k).isSome = true) :
    (alookup (insertItem items n) k).isSome = true := by
  simp only [insertItem]
  by_cases hmem : (alookup items (pyId n)).isSome = true
  · rw [if_pos hmem]; exact h
  · rw [if_neg hmem]
    exact alookup_isSome_append items _ k h

theorem insertItem_self (items : List (String × Item)) (n : String) :
    (alookup (insertItem items n) (pyId n)).isSome = true := by
  simp only [insertItem]
  by_cases hmem : (alookup items (pyId n)).isSome = true
  · rw [if_pos hmem]; exact hmem
  · rw [if_neg hmem, alookup_append]
    cases hl : alookup items (pyId n) with
    | some v => rw [hl] at hmem; simp at hmem
    | none => simp [alookup]

theorem itemsForMats_mono :
    ∀ (ms : List RawMat) (items i' : List (String × Item)) (k : String),
      itemsForMats items ms = Except.ok i' →
      (alookup items k).isSome = true → (alookup i' k).isSome = true := by
  intro ms
  induction ms with
  | nil =>
    intro items i' k h hk
    simp only [itemsForMats, Except.ok.injEq] at h
    subst h; exact hk
  | cons m ms ih =>
    intro items i' k h hk
    simp only [itemsForMats] at h
    cases hn : m.name with
    | none => simp only [hn] at h; exact absurd h (by simp)
    | some s =>
      simp only [hn] at h
      exact ih (insertItem items s) i' k h (insertItem_mono s hk)

theorem itemsForMats_covers :
    ∀ (ms : List RawMat) (items i' : List (String × Item)),
      itemsForMats items ms = Except.ok i' →
      ∀ m ∈ ms, ∀ s, m.name = some s → (alookup i' (pyId s)).isSome = true := by
  intro ms
  induction ms with
  | nil => intro items i' _ m hm; simp at hm
  | cons m0 ms ih =>
    intro items i' h m hm s hs
    simp only [itemsForMats] at h
    cases hn : m0.name with
    | none => simp only [hn] at h; exact absurd h (by simp)
    | some s0 =>
      simp only [hn] at h
      rcases List.mem_cons.1 hm with rfl | hm'
      · rw [hn] at hs
        simp only [Option.some.injEq] at hs
        subst hs
        exact itemsForMats_mono ms (insertItem items s0) i' (pyId s0) h
          (insertItem_self items s0)
      · exact ih (insertItem items s0) i' h m hm' s hs

theorem itemsAfterRecipes_mono :
    ∀ (rs : List RawRecipe) (items i' : List (String × Item)) (k : String),
      itemsAfterRecipes items rs = Except.ok i' →
      (alookup items k).isSome = true → (alookup i' k).isSome = true := by
  intro rs
  induction rs with
  | nil =>
    intro items i' k h hk
    simp only [itemsAfterRecipes, Except.ok.injEq] at h
    subst h; exact hk
  | cons r rs ih =>
    intro items i' k h hk
    simp only [itemsAfterRecipes] at h
    cases h1 : itemsForMats items r.inputs with
    | error e => simp only [h1] at h; exact absurd h (by simp)
    | ok i1 =>
      simp only [h1] at h
      cases h2 : itemsForMats i1 r.outputs with
      | error e => simp only [h2] at h; exact absurd h (by simp)
      | ok i2 =>
        simp only [h2] at h
        exact ih i2 i' k h
          (itemsForMats_mono r.outputs i1 i2 k h2 (itemsForMats_mono r.inputs items i1 k h1 hk))

theorem itemsAfterRecipes_covers :
    ∀ (rs : List RawRecipe) (items i' : List (String × Item)),
      itemsAfterRecipes items rs = Except.ok i' →
      ∀ r ∈ rs, ∀ m, (m ∈ r.inputs ∨ m ∈ r.outputs) → ∀ s, m.name = some s →
        (alookup i' (pyId s)).isSome = true := by
  intro rs
  induction rs with
  | nil => intro items i' _ r hr; simp at hr
  | cons r0 rs ih =>
    intro items i' h r hr m hm s hs
    simp only [itemsAfterRecipes] at h
    cases h1 : itemsForMats items r0.inputs with
    | error e => simp only [h1] at h; exact absurd h (by simp)
    | ok i1 =>
      simp only [h1] at h
      cases h2 : itemsForMats i1 r0.outputs with
      | error e => simp only [h2] at h; exact absurd h (by simp)
      | ok i2 =>
        simp only [h2] at h
        rcases List.mem_cons.1 hr with rfl | hr'
        · rcases hm with hin | hout
          · exact itemsAfterRecipes_mono rs i2 i' (pyId s) h
              (itemsForMats_mono r.outputs i1 i2 (pyId s) h2
                (itemsForMats_covers r.inputs items i1 h1 m hin s hs))
          · exact itemsAfterRecipes_mono rs i2 i' (pyId s) h
              (itemsForMats_covers r.outputs i1 i2 h2 m hout s hs)
        · exact ih i2 i' h r hr' m hm s hs

theorem matRef_ok {m : RawMat} {ref : ItemRef} (h : matRef m = Except.ok ref) :
    ∃ s, m.name = some s ∧ ref.itemId = pyId s := by
  unfold matRef pyName at h
  cases hn : m.name with
  | none => simp only [hn] at h; exact absurd h (by simp)
  | some s =>
    simp only [hn, Except.ok.injEq] at h
    exact ⟨s, rfl, by rw [← h]⟩

theorem genRecipes_refs (fid : String) :
    ∀ (rs : List RawRecipe) (cnt : List (String × Nat)) (es : List RecipeEntry),
      genRecipes fid cnt rs = Except.ok es →
      ∀ e ∈ es, ∀ ref, (ref ∈ e.inputs ∨ ref ∈ e.outputs) →
        ∃ r ∈ rs, ∃ m, (m ∈ r.inputs ∨ m ∈ r.outputs) ∧
          ∃ s, m.name = some s ∧ ref.itemId = pyId s := by
  intro rs
  induction rs with
  | nil =>
    intro cnt es h e he
    simp only [genRecipes, Except.ok.injEq] at h
    subst h
    simp at he
  | cons r rs ih =>
    intro cnt es h e he ref href
    simp only [genRecipes] at h
    cases ho : r.outputs with
    | nil => simp only [ho] at h; exact absurd h (by simp)
    | cons o os =>
      simp only [ho] at h
      cases hpn : pyName o.name with
      | error er => simp only [hpn] at h; exact absurd h (by simp)
      | ok firstOut =>
        simp only [hpn] at h
        cases hins : exMapM matRef r.inputs with
        | error er => simp only [hins] at h; exact absurd h (by simp)
        | ok ins =>
          simp only [hins] at h
          cases houts : exMapM matRef (o :: os) with
          | error er => simp only [houts] at h; exact absurd h (by simp)
          | ok outs =>
            simp only [houts] at h
            cases hrest : genRecipes fid
                (aset cnt firstOut ((alookup cnt firstOut).getD 0 + 1)) rs with
            | error er => simp only [hrest] at h; exact absurd h (by simp)
            | ok rest =>
              simp only [hrest, Except.ok.injEq] at h
              subst h
              rcases List.mem_cons.1 he with rfl | he'
              · rcases href with hin | hout
                · simp only at hin
                  obtain ⟨m, hm, hmr⟩ := exMapM_ok_mem hins ref hin
                  obtain ⟨s, hns, hid⟩ := matRef_ok hmr
                  exact ⟨r, by simp, m, Or.inl hm, s, hns, hid⟩
                · simp only at hout
                  obtain ⟨m, hm, hmr⟩ := exMapM_ok_mem houts ref hout
                  obtain ⟨s, hns, hid⟩ := matRef_ok hmr
                  exact ⟨r, by simp, m, Or.inr (by rw [ho]; exact hm), s, hns, hid⟩
              · obtain ⟨r', hr', m, hm, s, hns, hid⟩ := ih _ rest hrest e he' ref href
                exact ⟨r', by simp [hr'], m, hm, s, hns, hid⟩

theorem thumbStep_mono (uq : String → String) (src : String)
    (items : List (String × Item)) (k : String)
    (h : (alookup items k).isSome = true) :
    (alookup (thumbStep uq items src) k).isSome = true := by
  simp only [thumbStep]
  by_cases hmem : (alookup items (thumbIdOf uq src)).isSome = true
  · rw [if_pos hmem, alookup_updImage]
    by_cases hk : k = thumbIdOf uq src
    · rw [if_pos hk]
      cases hl : alookup items k with
      | none => rw [hl] at h; simp at h
      | some v => simp
    · rw [if_neg hk]; exact h
  · rw [if_neg hmem]; exact h

theorem thumbFold_mono (uq : String → String) :
    ∀ (srcs : List String) (items : List (String × Item)) (k : String),
      (alookup items k).isSome = true →
      (alookup (srcs.foldl (thumbStep uq) items) k).isSome = true := by
  intro srcs
  induction srcs with
  | nil => intro items k h; exact h
  | cons s ss ih =>
    intro items k h
    simp only [List.foldl_cons]
    exact ih (thumbStep uq items s) k (thumbStep_mono uq s items k h)

theorem alookup_insertEntries_cases :
    ∀ (es : List RecipeEntry) (m : List (String × RecipeEntry)) (id : String) (r : RecipeEntry),
      alookup (insertEntries m es) id = some r → r ∈ es ∨ alookup m id = some r := by
  intro es
  induction es with
  | nil => intro m id r h; exact Or.inr h
  | cons e es ih =>
    intro m id r h
    simp only [insertEntries] at h
    rcases ih (aset m e.id e) id r h with hmem | hl
    · exact Or.inl (List.mem_cons.2 (Or.inr hmem))
    · by_cases hk : id = e.id
      · subst hk
        rw [alookup_aset_self] at hl
        simp only [Option.some.injEq] at hl
        exact Or.inl (by rw [← hl]; exact List.mem_cons_self _ _)
      · rw [alookup_aset_ne m e.id id e hk] at hl
        exact Or.inr hl

/-- Per-step preservation of the C3 invariant. -/
theorem phase2Step_c3 {uq : String → String} {st st' : St} {name : String}
    {pf : ParsedFacility} (h : phase2Step uq st name pf = Except.ok st')
    (hinv : ∀ id r, alookup st.recipes id = some r →
      ∀ ref, (ref ∈ r.inputs ∨ ref ∈ r.outputs) →
        (alookup st.items ref.itemId).isSome = true) :
    ∀ id r, alookup st'.recipes id = some r →
      ∀ ref, (ref ∈ r.inputs ∨ ref ∈ r.outputs) →
        (alookup st'.items ref.itemId).isSome = true := by
  simp only [phase2Step] at h
  cases hia : itemsAfterRecipes st.items pf.recipes with
  | error e => simp only [hia] at h; exact absurd h (by simp)
  | ok items1 =>
    simp only [hia] at h
    cases hg : genRecipes (pyId name) [] pf.recipes with
    | error e => simp only [hg] at h; exact absurd h (by simp)
    | ok es =>
      simp only [hg, Except.ok.injEq] at h
      subst h
      intro id r hl ref href
      simp only at hl ⊢
      rcases alookup_insertEntries_cases es st.recipes id r hl with hnew | hold
      · obtain ⟨r0, hr0, m, hm, s, hns, hrefEq⟩ :=
          genRecipes_refs (pyId name) pf.recipes [] es hg r hnew ref href
        rw [hrefEq]
        exact thumbFold_mono uq pf.itemImgs items1 (pyId s)
          (itemsAfterRecipes_covers pf.recipes st.items items1 hia r0 hr0 m hm s hns)
      · have hk := hinv id r hold ref href
        exact thumbFold_mono uq pf.itemImgs items1 ref.itemId
          (itemsAfterRecipes_mono pf.recipes st.items items1 ref.itemId hia hk)

theorem phase2Go_c3 (uq : String → String) :
    ∀ (l : List (String × ParsedFacility)) (st st' : St),
      phase2Go uq st l = Except.ok st' →
      (∀ id r, alookup st.recipes id = some r →
        ∀ ref, (ref ∈ r.inputs ∨ ref ∈ r.outputs) →
          (alookup st.items ref.itemId).isSome = true) →
      ∀ id r, alookup st'.recipes id = some r →
        ∀ ref, (ref ∈ r.inputs ∨ ref ∈ r.outputs) →
          (alookup st'.items ref.itemId).isSome = true := by
  intro l
  induction l with
  | nil =>
    intro st st' h hinv
    simp only [phase2Go, Except.ok.injEq] at h
    subst h; exact hinv
  | cons p rest ih =>
    obtain ⟨name, pf⟩ := p
    intro st st' h hinv
    simp only [phase2Go] at h
    cases hstep : phase2Step uq st name pf with
    | error e => simp only [hstep] at h; exact absurd h (by simp)
    | ok st1 =>
      simp only [hstep] at h
      exact ih st1 st' h (phase2Step_c3 hstep hinv)

/-- Claim C3: after the aggregation loop, every `itemId` referenced by
any recipe's inputs or outputs is a key of the items map (first
conjunct); `setdefault` inserts the fresh `{id, name, null image, null
tier}` record (second conjunct); and the items inserted for a facility's
recipes already cover every reference of the recipe entries generated
afterwards from the same raw recipes (third conjunct — the insertion
happens before the recipe records are constructed). -/
theorem c3_items_closed :
    (∀ (uq : String → String) (inp : List (String × ParsedFacility)) (st : St),
      phase2 uq inp = Except.ok st →
      ∀ id r, alookup st.recipes id = some r →
        ∀ ref, (ref ∈ r.inputs ∨ ref ∈ r.outputs) →
          (alookup st.items ref.itemId).isSome = true) ∧
    (∀ (items : List (String × Item)) (n : String),
      alookup items (pyId n) = none →
      alookup (insertItem items n) (pyId n)
        = some { id := pyId n, nameEn := n, image := none, tier := none }) ∧
    (∀ (rs : List RawRecipe) (items i1 : List (String × Item)) (fid : String)
        (cnt : List (String × Nat)) (es : List RecipeEntry),
      itemsAfterRecipes items rs = Except.ok i1 →
      genRecipes fid cnt rs = Except.ok es →
      ∀ e ∈ es, ∀ ref, (ref ∈ e.inputs ∨ ref ∈ e.outputs) →
        (alookup i1 ref.itemId).isSome = true) := by
  refine ⟨?_, ?_, ?_⟩
  · intro uq inp st h
    exact phase2Go_c3 uq inp ⟨[], [], []⟩ st h (by intro id r hl; simp [alookup] at hl)
  · intro items n h
    have hns : ¬ (alookup items (pyId n)).isSome = true := by simp [h]
    simp only [insertItem, if_neg hns]
    rw [alookup_append, h]
    simp [alookup]
  · intro rs items i1 fid cnt es hia hg e he ref href
    obtain ⟨r0, hr0, m, hm, s, hns, hrefEq⟩ := genRecipes_refs fid rs cnt es hg e he ref href
    rw [hrefEq]
    exact itemsAfterRecipes_covers rs items i1 hia r0 hr0 m hm s hns

/-- Witness for C3 at concrete inputs. -/
theorem c3_witness :
    alookup (insertItem [] "Iron Ore") (pyId "Iron Ore")
      = some { id := pyId "Iron Ore", nameEn := "Iron Ore", image := none, tier := none } ∧
    (∀ e ∈ [({ id := "F__Ingot__1", facilityId := "F",
               inputs := [{ itemId := "Ore", amount := 2 }],
               outputs := [{ itemId := "Ingot", amount := 1 }],
               craftingTime := "5s" } : RecipeEntry)],
      ∀ ref, (ref ∈ e.inputs ∨ ref ∈ e.outputs) →
        (alookup [("Ore", ({ id := "Ore", nameEn := "Ore", image := none, tier := none } : Item)),
                  ("Ingot", ({ id := "Ingot", nameEn := "Ingot", image := none, tier := none } : Item))]
          ref.itemId).isSome = true) :=
  ⟨c3_items_closed.2.1 [] "Iron Ore" rfl,
   c3_items_closed.2.2 [⟨[⟨some "Ore", 2⟩], [⟨some "Ingot", 1⟩], "5s"⟩] [] _ "F" [] _ rfl rfl⟩

/-! ## Claim C4 -/

theorem alookup_insertEntries_not_mem :
    ∀ (es : List RecipeEntry) (m : List (String × RecipeEntry)) (id : String),
      id ∉ es.map (fun e => e.id) →
      alookup (insertEntries m es) id = alookup m id := by
  intro es
  induction es with
  | nil => intro m id _; rfl
  | cons e es ih =>
    intro m id hid
    simp only [List.map_cons, List.mem_cons, not_or] at hid
    simp only [insertEntries]
    rw [ih (aset m e.id e) id hid.2, alookup_aset_ne m e.id id e hid.1]

theorem alookup_insertEntries_mem :
    ∀ (es : List RecipeEntry) (m : List (String × RecipeEntry)) (e : RecipeEntry),
      e ∈ es → (es.map (fun e => e.id)).Nodup →
      alookup (insertEntries m es) e.id = some e := by
  intro es
  induction es with
  | nil => intro m e he; simp at he
  | cons e0 es ih =>
    intro m e he hnd
    simp only [List.map_cons, List.nodup_cons] at hnd
    simp only [insertEntries]
    rcases List.mem_cons.1 he with rfl | he'
    · rw [alookup_insertEntries_not_mem es (aset m e.id e) e.id hnd.1, alookup_aset_self]
    · exact ih (aset m e0.id e0) e he' hnd.2

theorem not_pre_of_lpre_false {a b : List Char} (h : lpre a b = false) :
    ¬ ∃ t, b = a ++ t := by
  intro hex
  have ht := (lpre_iff a b).2 hex
  rw [h] at ht
  exact absurd ht (by simp)

theorem nameClash_false_not_pre {a b : String} (h : nameClash a b = false) :
    (¬ ∃ t, (pyId b ++ "__").data = (pyId a ++ "__").data ++ t) ∧
    (¬ ∃ t, (pyId a ++ "__").data = (pyId b ++ "__").data ++ t) := by
  simp only [nameClash, Bool.or_eq_false_iff] at h
  exact ⟨not_pre_of_lpre_false h.1, not_pre_of_lpre_false h.2⟩

/-- The phase-2 invariant for claim C4: every facility record's
`supportedRecipes` is duplicate-free and coincides with the set of
recipe ids whose stored entry carries that facility id; every stored
recipe id starts with its facility id followed by `__`, and the facility
id belongs to the processed prefix. -/
def InvC4 (st : St) (pids : List String) : Prop :=
  (∀ fid fac, alookup st.facilities fid = some fac →
    fac.supportedRecipes.Nodup ∧
    ∀ id, id ∈ fac.supportedRecipes ↔
      ∃ r, alookup st.recipes id = some r ∧ r.facilityId = fid) ∧
  (∀ id r, alookup st.recipes id = some r →
    (∃ t, id.data = (r.facilityId ++ "__").data ++ t) ∧ r.facilityId ∈ pids)

theorem phase2Step_c4 {uq : String → String} {st st' : St} {name : String}
    {pf : ParsedFacility} {pids : List String}
    (h : phase2Step uq st name pf = Except.ok st')
    (hinv : InvC4 st pids)
    (hpre : ∀ p ∈ pids,
      (¬ ∃ t, (pyId name ++ "__").data = (p ++ "__").data ++ t) ∧
      (¬ ∃ t, (p ++ "__").data = (pyId name ++ "__").data ++ t)) :
    InvC4 st' (pids ++ [pyId name]) := by
  have hfid_fresh : pyId name ∉ pids := by
    intro hmem
    exact (hpre (pyId name) hmem).1 ⟨[], by simp⟩
  simp only [phase2Step] at h
  cases hia : itemsAfterRecipes st.items pf.recipes with
  | error e => simp only [hia] at h; exact absurd h (by simp)
  | ok items1 =>
    simp only [hia] at h
    cases hg : genRecipes (pyId name) [] pf.recipes with
    | error e => simp only [hg] at h; exact absurd h (by simp)
    | ok es =>
      simp only [hg, Except.ok.injEq] at h
      subst h
      obtain ⟨hprop, hnodup⟩ := genRecipes_ids (pyId name) pf.recipes [] es hg
      have hfresh : ∀ e ∈ es, alookup st.recipes e.id = none := by
        intro e he
        cases hl : alookup st.recipes e.id with
        | none => rfl
        | some r =>
          exfalso
          obtain ⟨⟨t, hpr⟩, hmem⟩ := hinv.2 e.id r hl
          obtain ⟨_, o, s, hid, _⟩ := hprop e he
          have hpr2 : e.id.data = (pyId name ++ "__").data
              ++ (o.data ++ '_' :: '_' :: (natStr s).data) := by
            rw [hid, rid_pre]
          rcases append_eq_append_pre (hpr.symm.trans hpr2) with ⟨t2, ht2⟩ | ⟨t2, ht2⟩
          · exact (hpre r.facilityId hmem).1 ⟨t2, ht2⟩
          · exact (hpre r.facilityId hmem).2 ⟨t2, ht2⟩
      constructor
      · intro fid0 fac0 hf0
        simp only at hf0
        by_cases hf : fid0 = pyId name
        · subst hf
          rw [alookup_aset_self] at hf0
          simp only [Option.some.injEq] at hf0
          subst hf0
          constructor
          · exact hnodup
          · intro id
            simp only
            constructor
            · intro hid
              obtain ⟨e, he, hide⟩ := List.mem_map.1 hid
              refine ⟨e, ?_, (hprop e he).1⟩
              rw [← hide]
              exact alookup_insertEntries_mem es st.recipes e he hnodup
            · rintro ⟨r, hlr, hfr⟩
              by_cases hidmem : id ∈ es.map (fun e => e.id)
              · exact hidmem
              · exfalso
                rw [alookup_insertEntries_not_mem es st.recipes id hidmem] at hlr
                have hmem := (hinv.2 id r hlr).2
                rw [hfr] at hmem
                exact hfid_fresh hmem
        · rw [alookup_aset_ne st.facilities (pyId name) fid0 _ hf] at hf0
          obtain ⟨hnd0, hiff0⟩ := hinv.1 fid0 fac0 hf0
          refine ⟨hnd0, ?_⟩
          intro id
          simp only
          by_cases hidmem : id ∈ es.map (fun e => e.id)
          · obtain ⟨e, he, hide⟩ := List.mem_map.1 hidmem
            constructor
            · intro hid0
              exfalso
              obtain ⟨r, hlr, _⟩ := (hiff0 id).1 hid0
              rw [← hide, hfresh e he] at hlr
              exact absurd hlr (by simp)
            · rintro ⟨r, hlr, hfr⟩
              exfalso
              rw [← hide, alookup_insertEntries_mem es st.recipes e he hnodup] at hlr
              simp only [Option.some.injEq] at hlr
              subst hlr
              have : pyId name = fid0 := by rw [← (hprop e he).1]; exact hfr
              exact hf this.symm
          · rw [alookup_insertEntries_not_mem es st.recipes id hidmem]
            exact hiff0 id
      · intro id r hlr
        simp only at hlr
        by_cases hidmem : id ∈ es.map (fun e => e.id)
        · obtain ⟨e, he, hide⟩ := List.mem_map.1 hidmem
          rw [← hide, alookup_insertEntries_mem es st.recipes e he hnodup] at hlr
          simp only [Option.some.injEq] at hlr
          subst hlr
          obtain ⟨hfe, o, s, hid, _⟩ := hprop e he
          constructor
          · refine ⟨o.data ++ '_' :: '_' :: (natStr s).data, ?_⟩
            rw [← hide, hfe, hid, rid_pre]
          · rw [hfe]; simp
        · rw [alookup_insertEntries_not_mem es st.recipes id hidmem] at hlr
          obtain ⟨hex, hmem⟩ := hinv.2 id r hlr
          exact ⟨hex, by simp [hmem]⟩

theorem phase2Go_c4 (uq : String → String) :
    ∀ (l : List (String × ParsedFacility)) (st : St) (pids : List String),
      InvC4 st pids →
      (∀ p ∈ pids, ∀ nm ∈ l.map Prod.fst,
        (¬ ∃ t, (pyId nm ++ "__").data = (p ++ "__").data ++ t) ∧
        (¬ ∃ t, (p ++ "__").data = (pyId nm ++ "__").data ++ t)) →
      noClash (l.map Prod.fst) = true →
      ∀ st', phase2Go uq st l = Except.ok st' →
        InvC4 st' (pids ++ l.map (fun q => pyId q.1)) := by
  intro l
  induction l with
  | nil =>
    intro st pids hinv _ _ st' h
    simp only [phase2Go, Except.ok.injEq] at h
    subst h
    simpa using hinv
  | cons p rest ih =>
    obtain ⟨name, pf⟩ := p
    intro st pids hinv hcross hnc st' h
    simp only [List.map_cons] at hnc
    obtain ⟨hcl, hnc'⟩ := noClash_cons hnc
    simp only [phase2Go] at h
    cases hstep : phase2Step uq st name pf with
    | error e => simp only [hstep] at h; exact absurd h (by simp)
    | ok st1 =>
      simp only [hstep] at h
      have hinv1 : InvC4 st1 (pids ++ [pyId name]) :=
        phase2Step_c4 hstep hinv
          (fun p hp => hcross p hp name (by simp))
      have hcross1 : ∀ p ∈ pids ++ [pyId name], ∀ nm ∈ rest.map Prod.fst,
          (¬ ∃ t, (pyId nm ++ "__").data = (p ++ "__").data ++ t) ∧
          (¬ ∃ t, (p ++ "__").data = (pyId nm ++ "__").data ++ t) := by
        intro p hp nm hnm
        rcases List.mem_append.1 hp with hp1 | hp2
        · exact hcross p hp1 nm (by simp [hnm])
        · have hpeq : p = pyId name := by simpa using hp2
          subst hpeq
          exact nameClash_false_not_pre (hcl nm hnm)
      have hres := ih st1 (pids ++ [pyId name]) hinv1 hcross1 hnc' st' h
      have hlist : (pids ++ [pyId name]) ++ rest.map (fun q => pyId q.1)
          = pids ++ ((⟨name, pf⟩ :: rest : List (String × ParsedFacility)).map
              (fun q => pyId q.1)) := by
        simp
      rw [hlist] at hres
      exact hres

/-- Claim C4 (amended): after aggregation, every facility record's
`supportedRecipes` equals exactly the set of recipe ids in the recipes
map whose `facilityId` is that facility's id — no id missing, none
extra, no duplicates — PROVIDED no facility name's derived
`{facilityId}__` prefix is a prefix of another's.  (Distinct names such
as "A B" and "A_B" collapse to one facility id and break the property —
see the counterexample.) -/
theorem c4_supported_recipes :
    ∀ (uq : String → String) (inp : List (String × ParsedFacility)) (st : St),
      noClash (inp.map Prod.fst) = true →
      phase2 uq inp = Except.ok st →
      ∀ fid fac, alookup st.facilities fid = some fac →
        fac.supportedRecipes.Nodup ∧
        ∀ id, id ∈ fac.supportedRecipes ↔
          ∃ r, alookup st.recipes id = some r ∧ r.facilityId = fid := by
  intro uq inp st hnc h
  have hinit : InvC4 ⟨[], [], []⟩ [] := by
    constructor
    · intro fid fac hf
      simp [alookup] at hf
    · intro id r hr
      simp [alookup] at hr
  have := phase2Go_c4 uq inp ⟨[], [], []⟩ [] hinit (by intro p hp; simp at hp) hnc st h
  exact this.1

/-- The C4 violation input: distinct facility names "A B" and "A_B"
collapse to the facility id "A_B"; the second record overwrites the
first, losing the first facility's recipe id from `supportedRecipes`
while its recipe stays in the recipes map. -/
def c4cexInput : List (String × ParsedFacility) :=
  [("A B", ⟨none, [], [], [⟨[], [⟨some "X", 1⟩], "t"⟩]⟩),
   ("A_B", ⟨none, [], [], [⟨[], [⟨some "Y", 1⟩], "t"⟩]⟩)]

/-- Counterexample for C4 as stated: the recipes map holds
`A_B__X__1` with `facilityId = "A_B"`, yet facility "A_B"'s
`supportedRecipes` is `["A_B__Y__1"]` — a recipe id is missing. -/
theorem c4_counterexample :
    (phase2 (fun s => s) c4cexInput).map
        (fun st => (alookup st.facilities "A_B").map (fun f => f.supportedRecipes))
      = Except.ok (some ["A_B__Y__1"]) ∧
    (phase2 (fun s => s) c4cexInput).map
        (fun st => (alookup st.recipes "A_B__X__1").map (fun r => r.facilityId))
      = Except.ok (some "A_B") ∧
    ("A_B__X__1" : String) ∉ (["A_B__Y__1"] : List String) :=
  ⟨rfl, rfl, by decide⟩

/-- The facility record of the C4 witness state. -/
def c4wFac : Facility :=
  { id := "Alpha", name := "Alpha", tier := none, powerConsumption := none,
    supportedRecipes := ["Alpha__X__1"], image := none }

/-- The aggregation state for the C4 witness input. -/
def c4wSt : St :=
  { items := [("X", { id := "X", nameEn := "X", image := none, tier := none })]
    facilities := [("Alpha", c4wFac)]
    recipes := [("Alpha__X__1", { id := "Alpha__X__1", facilityId := "Alpha",
                                  inputs := [], outputs := [{ itemId := "X", amount := 1 }],
                                  craftingTime := "t" })] }

/-- The C4 witness input: one clash-free facility. -/
def c4wInput : List (String × ParsedFacility) :=
  [("Alpha", ⟨none, [], [], [⟨[], [⟨some "X", 1⟩], "t"⟩]⟩)]

/-- Witness for C4 at a concrete clash-free input. -/
theorem c4_witness :
    c4wFac.supportedRecipes.Nodup ∧
    ("Alpha__X__1" ∈ c4wFac.supportedRecipes ↔
      ∃ r, alookup c4wSt.recipes "Alpha__X__1" = some r ∧ r.facilityId = "Alpha") :=
  ⟨(c4_supported_recipes (fun s => s) c4wInput c4wSt (by decide) rfl "Alpha" c4wFac rfl).1,
   (c4_supported_recipes (fun s => s) c4wInput c4wSt (by decide) rfl "Alpha" c4wFac rfl).2
     "Alpha__X__1"⟩
